import Mathlib

/-!
Verification of the voice-session time-tracking engine (`VoiceTrackingService`
in `voice_tracker/voice_tracking.py`).

The store is modelled shallowly: the three SQLite tables become lists of rows,
SQL statements become list transformations, and UTC instants become integer
second counts (the source truncates elapsed time to whole seconds with
`int(....total_seconds())`, so an integer clock captures exactly the credited
amounts).  Each service method becomes a pure function on the store; the
wall-clock reading `datetime.now(...)` taken inside a method becomes an
explicit `now` argument.
-/

namespace VoiceTracker

/-- The four accumulation buckets, `BUCKETS` in the source. -/
inductive Bucket
  | weekly
  | monthly
  | yearly
  | alltime
deriving DecidableEq, Repr

/-- A row of the `voice_time` table: primary key (guild_id, user_id, bucket),
accumulated seconds and a last-updated timestamp. -/
structure VoiceTimeRow where
  guild_id : Nat
  user_id : Nat
  bucket : Bucket
  seconds : Int
  updated_at : Int
deriving DecidableEq, Repr

/-- A row of the `active_sessions` table: primary key (guild_id, user_id). -/
structure ActiveSession where
  guild_id : Nat
  user_id : Nat
  channel_id : Nat
  started_at : Int
deriving DecidableEq, Repr

/-- The persistent store: the three tables created by `_initialize_schema`. -/
structure Store where
  voice_time : List VoiceTimeRow
  active_sessions : List ActiveSession
  metadata : List (String × String)
deriving DecidableEq, Repr

/-- Primary key of a `voice_time` row. -/
def vkey (r : VoiceTimeRow) : Nat × Nat × Bucket := (r.guild_id, r.user_id, r.bucket)

/-- Primary key of an `active_sessions` row. -/
def skey (r : ActiveSession) : Nat × Nat := (r.guild_id, r.user_id)

/-- The bucket tuple `BUCKETS = ("weekly", "monthly", "yearly", "alltime")`. -/
def BUCKETS : List Bucket := [.weekly, .monthly, .yearly, .alltime]

/-- Lookup of a `voice_time` row by primary key (first match, as `fetchone`). -/
def vfind (rows : List VoiceTimeRow) (k : Nat × Nat × Bucket) : Option VoiceTimeRow :=
  rows.find? (fun r => vkey r = k)

/-- Accumulated seconds held by a row list for a key, zero when absent. -/
def secsRows (rows : List VoiceTimeRow) (k : Nat × Nat × Bucket) : Int :=
  match vfind rows k with
  | some r => r.seconds
  | none => 0

/-- Lookup of an `active_sessions` row by primary key. -/
def sfind (rows : List ActiveSession) (p : Nat × Nat) : Option ActiveSession :=
  rows.find? (fun r => skey r = p)

/-- The `active_sessions` rows carrying a given (guild, user) key. -/
def sessionsForRows (rows : List ActiveSession) (p : Nat × Nat) : List ActiveSession :=
  rows.filter (fun r => skey r = p)

/-- One `INSERT ... ON CONFLICT(guild_id, user_id, bucket) DO UPDATE SET seconds
= voice_time.seconds + excluded.seconds, updated_at = excluded.updated_at`:
update the (unique) row holding the key, or append a fresh row. -/
def upsertVoice (g u : Nat) (b : Bucket) (d ts : Int) :
    List VoiceTimeRow → List VoiceTimeRow
  | [] => [⟨g, u, b, d, ts⟩]
  | r :: rest =>
    if vkey r = (g, u, b) then { r with seconds := r.seconds + d, updated_at := ts } :: rest
    else r :: upsertVoice g u b d ts rest

/-- The `executemany` body of `_apply_duration`: the additive upsert executed
for every bucket in `BUCKETS`. -/
def applyVoiceRows (g u : Nat) (d ts : Int) (rows : List VoiceTimeRow) : List VoiceTimeRow :=
  BUCKETS.foldl (fun acc b => upsertVoice g u b d ts acc) rows

/-- `_apply_duration` as a store transformation. -/
def apply_duration (g u : Nat) (d ts : Int) (s : Store) : Store :=
  { s with voice_time := applyVoiceRows g u d ts s.voice_time }

/-- `INSERT INTO active_sessions ... ON CONFLICT(guild_id, user_id) DO NOTHING`. -/
def insertSessionIfAbsent (g u c : Nat) (t : Int) :
    List ActiveSession → List ActiveSession
  | [] => [⟨g, u, c, t⟩]
  | r :: rest =>
    if skey r = (g, u) then r :: rest
    else r :: insertSessionIfAbsent g u c t rest

/-- `DELETE FROM active_sessions WHERE guild_id = ? AND user_id = ?`. -/
def deleteSession (g u : Nat) (rows : List ActiveSession) : List ActiveSession :=
  rows.filter (fun r => ¬ skey r = (g, u))

/-- `UPDATE active_sessions SET started_at = ? WHERE guild_id = ? AND user_id = ?`. -/
def updateStartedAt (g u : Nat) (t : Int) (rows : List ActiveSession) : List ActiveSession :=
  rows.map (fun r => if skey r = (g, u) then { r with started_at := t } else r)

/-- `_start_session_locked`: insert an ActiveSession only if absent; `t` is the
`datetime.now(timezone.utc)` read inside the method. -/
def start_session (g u c : Nat) (t : Int) (s : Store) : Store :=
  { s with active_sessions := insertSessionIfAbsent g u c t s.active_sessions }

/-- The `SELECT ... FROM active_sessions WHERE guild_id = ? AND user_id = ?`
plus `fetchone` at the top of `end_session`. -/
def findSession (s : Store) (g u : Nat) : Option ActiveSession :=
  sfind s.active_sessions (g, u)

/-- `_finalize_session_locked`: credit the positive elapsed duration to all four
buckets, then delete the ActiveSession row. -/
def finalizeSession (g u : Nat) (t0 now : Int) (s : Store) : Store :=
  let d := now - t0
  let s1 := if 0 < d then apply_duration g u d now s else s
  { s1 with active_sessions := deleteSession g u s1.active_sessions }

/-- `end_session`: no-op when no session row exists, otherwise finalize it at
`now`. -/
def end_session (g u : Nat) (now : Int) (s : Store) : Store :=
  match findSession s g u with
  | none => s
  | some r => finalizeSession g u r.started_at now s

/-- The optional guild filter of `sync_active_sessions`. -/
def guildMatch (gf : Option Nat) (g : Nat) : Bool :=
  match gf with
  | none => true
  | some g0 => g = g0

/-- Read phase of `sync_active_sessions`: the rows returned by the `SELECT`
under the first lock acquisition. -/
def syncRows (gf : Option Nat) (s : Store) : List ActiveSession :=
  s.active_sessions.filter (fun r => guildMatch gf r.guild_id)

/-- The `duration_updates` list: one `(guild_id, user_id, duration)` entry per
row whose elapsed time is strictly positive. -/
def durationUpdates (rows : List ActiveSession) (now : Int) : List (Nat × Nat × Int) :=
  rows.filterMap (fun r =>
    if 0 < now - r.started_at then some (r.guild_id, r.user_id, now - r.started_at) else none)

/-- The loop `for gid, uid, dur in duration_updates: _apply_duration(...)`. -/
def creditsFold (L : List (Nat × Nat × Int)) (now : Int) (s : Store) : Store :=
  L.foldl (fun st e => apply_duration e.1 e.2.1 e.2.2 now st) s

/-- Write phase of `sync_active_sessions` (second lock acquisition): apply every
duration update, then `executemany` the started_at updates; if no row had
positive elapsed time the method returns without touching the store. -/
def syncWrite (rows : List ActiveSession) (now : Int) (s : Store) : Store :=
  let L := durationUpdates rows now
  if L.isEmpty then s
  else
    let s1 := creditsFold L now s
    { s1 with active_sessions :=
        L.foldl (fun acc e => updateStartedAt e.1 e.2.1 now acc) s1.active_sessions }

/-- `sync_active_sessions`: read phase composed with write phase (run back to
back, with no other operation in between). -/
def sync_active_sessions (gf : Option Nat) (now : Int) (s : Store) : Store :=
  syncWrite (syncRows gf s) now s

/-- `clear_guild_stats`: delete all voice_time and active_sessions rows of one
guild. -/
def clear_guild_stats (g : Nat) (s : Store) : Store :=
  { s with
    voice_time := s.voice_time.filter (fun r => ¬ r.guild_id = g),
    active_sessions := s.active_sessions.filter (fun r => ¬ r.guild_id = g) }

/-- The `live_voice` dictionary of `reconcile_active_sessions`: a finite map
from (guild_id, user_id) to the channel currently occupied (bots excluded). -/
def liveLookup (live : List ((Nat × Nat) × Nat)) (p : Nat × Nat) : Option Nat :=
  (live.find? (fun e => e.1 = p)).map (·.2)

/-- The `finalize_ops` list: every recorded session whose live channel differs
from (or is absent versus) the stored channel, in recorded order. -/
def finalizeOps (recorded : List ActiveSession) (live : List ((Nat × Nat) × Nat)) :
    List (Nat × Nat × Int) :=
  recorded.filterMap (fun r =>
    if liveLookup live (skey r) = some r.channel_id then none
    else some (r.guild_id, r.user_id, r.started_at))

/-- Start ops appended while walking `recorded_map`: the user is still live but
in a different channel. -/
def moveStartOps (recorded : List ActiveSession) (live : List ((Nat × Nat) × Nat)) :
    List (Nat × Nat × Nat) :=
  recorded.filterMap (fun r =>
    match liveLookup live (skey r) with
    | some c => if c = r.channel_id then none else some (r.guild_id, r.user_id, c)
    | none => none)

/-- Start ops appended while walking `live_voice`: live pairs with no recorded
session at all. -/
def freshStartOps (recorded : List ActiveSession) (live : List ((Nat × Nat) × Nat)) :
    List (Nat × Nat × Nat) :=
  live.filterMap (fun e =>
    if recorded.any (fun r => skey r = e.1) then none else some (e.1.1, e.1.2, e.2))

/-- `reconcile_active_sessions`: finalize every stale session at `now`, then
start every missing live session (started_at is the clock reading of the
operation, modelled as the same `now`). -/
def reconcile_active_sessions (live : List ((Nat × Nat) × Nat)) (now : Int) (s : Store) :
    Store :=
  let recorded := s.active_sessions
  let fo := finalizeOps recorded live
  let so := moveStartOps recorded live ++ freshStartOps recorded live
  let s1 := fo.foldl (fun st e => finalizeSession e.1 e.2.1 e.2.2 now st) s
  so.foldl (fun st e => start_session e.1 e.2.1 e.2.2 now st) s1

/-- `get_metadata`. -/
def getMeta (s : Store) (k : String) : Option String :=
  (s.metadata.find? (fun e => e.1 = k)).map (·.2)

/-- The `INSERT INTO metadata ... ON CONFLICT(key) DO UPDATE SET value =
excluded.value` of `set_metadata`. -/
def upsertMeta (k v : String) : List (String × String) → List (String × String)
  | [] => [(k, v)]
  | e :: rest => if e.1 = k then (k, v) :: rest else e :: upsertMeta k v rest

/-- `set_metadata`. -/
def set_metadata (k v : String) (s : Store) : Store :=
  { s with metadata := upsertMeta k v s.metadata }

/-- `fetch_user_position`: seconds of the user's row plus `1 + COUNT` of rows
in the same (guild, bucket) with strictly greater seconds; `none` when the user
has no row. -/
def fetch_user_position (g u : Nat) (b : Bucket) (s : Store) : Option (Int × Nat) :=
  match vfind s.voice_time (g, u, b) with
  | none => none
  | some r =>
    some (r.seconds,
      (s.voice_time.filter (fun r2 =>
        r2.guild_id = r.guild_id ∧ r2.bucket = r.bucket ∧ r.seconds < r2.seconds)).length + 1)

/-- The local calendar date carried by `now_local = datetime.now(self.config.timezone)`
(only year, month and day are consulted by the reset handlers). -/
structure LocalDate where
  year : Nat
  month : Nat
  day : Nat
deriving DecidableEq, Repr

/-- Gregorian leap-year test. -/
def isLeap (y : Nat) : Bool :=
  y % 4 == 0 && (y % 100 != 0 || y % 400 == 0)

/-- Days before the first of month `m` in a year whose leap flag is `leap`. -/
def daysBeforeMonth (m : Nat) (leap : Bool) : Nat :=
  let base :=
    match m with
    | 1 => 0
    | 2 => 31
    | 3 => 59
    | 4 => 90
    | 5 => 120
    | 6 => 151
    | 7 => 181
    | 8 => 212
    | 9 => 243
    | 10 => 273
    | 11 => 304
    | _ => 334
  if leap && decide (2 < m) then base + 1 else base

/-- Proleptic-Gregorian day number with `0001-01-01` as day 1. -/
def rataDie (d : LocalDate) : Nat :=
  365 * (d.year - 1) + (d.year - 1) / 4 - (d.year - 1) / 100 + (d.year - 1) / 400
    + daysBeforeMonth d.month (isLeap d.year) + d.day

/-- Python's `datetime.weekday()`: Monday is 0. -/
def weekday (d : LocalDate) : Nat := (rataDie d - 1) % 7

/-- Zero-pad to two digits (the `%m`/`%d` fields). -/
def pad2 (n : Nat) : String := if n < 10 then "0" ++ toString n else toString n

/-- Zero-pad to four digits (the `%Y` field). -/
def pad4 (n : Nat) : String :=
  if n < 10 then "000" ++ toString n
  else if n < 100 then "00" ++ toString n
  else if n < 1000 then "0" ++ toString n
  else toString n

/-- `now_local.date().isoformat()`. -/
def isoDate (d : LocalDate) : String :=
  pad4 d.year ++ "-" ++ pad2 d.month ++ "-" ++ pad2 d.day

/-- `now_local.strftime("%Y-%m")`. -/
def monthLabel (d : LocalDate) : String := pad4 d.year ++ "-" ++ pad2 d.month

/-- `now_local.strftime("%Y")`. -/
def yearLabel (d : LocalDate) : String := pad4 d.year

/-- `_handle_weekly_reset`. -/
def handle_weekly_reset (d : LocalDate) (s : Store) : Store :=
  if weekday d ≠ 0 then s
  else
    let label := isoDate d
    if getMeta s "weekly_reset" = some label then s
    else
      set_metadata "weekly_reset" label
        { s with voice_time := s.voice_time.filter (fun r => ¬ r.bucket = Bucket.weekly) }

/-- `_handle_monthly_reset`. -/
def handle_monthly_reset (d : LocalDate) (s : Store) : Store :=
  if d.day ≠ 1 then s
  else
    let label := monthLabel d
    if getMeta s "monthly_reset" = some label then s
    else
      set_metadata "monthly_reset" label
        { s with voice_time := s.voice_time.filter (fun r => ¬ r.bucket = Bucket.monthly) }

/-- `_handle_yearly_reset`. -/
def handle_yearly_reset (d : LocalDate) (s : Store) : Store :=
  if d.month ≠ 1 ∨ d.day ≠ 1 then s
  else
    let label := yearLabel d
    if getMeta s "yearly_reset" = some label then s
    else
      set_metadata "yearly_reset" label
        { s with voice_time := s.voice_time.filter (fun r => ¬ r.bucket = Bucket.yearly) }

/-- `handle_periodic_resets`: flush all sessions first, then run the three
boundary checks against the local date. -/
def handle_periodic_resets (d : LocalDate) (now : Int) (s : Store) : Store :=
  handle_yearly_reset d (handle_monthly_reset d (handle_weekly_reset d
    (sync_active_sessions none now s)))

/-- Accumulated seconds recorded for a (guild, user, bucket), zero when the row
does not exist. -/
def secondsOf (s : Store) (g u : Nat) (b : Bucket) : Int :=
  secsRows s.voice_time (g, u, b)

/-- Whether a `voice_time` row exists for the triple. -/
def hasVoiceRow (s : Store) (g u : Nat) (b : Bucket) : Bool :=
  (vfind s.voice_time (g, u, b)).isSome

/-- The active_sessions rows of the store carrying a given (guild, user) key. -/
def sessionsFor (s : Store) (g u : Nat) : List ActiveSession :=
  sessionsForRows s.active_sessions (g, u)

/-- The (guild, user, channel) identity of a session row. -/
def idTriple (r : ActiveSession) : Nat × Nat × Nat := (r.guild_id, r.user_id, r.channel_id)

/-- The empty store: the state after `_initialize_schema` on a fresh database. -/
def initStore : Store := ⟨[], [], []⟩

/-- One invocation of a public engine operation, with its clock readings and
inputs chosen arbitrarily. -/
inductive Step : Store → Store → Prop
  | start (g u c : Nat) (t : Int) (s : Store) : Step s (start_session g u c t s)
  | close (g u : Nat) (t : Int) (s : Store) : Step s (end_session g u t s)
  | flush (gf : Option Nat) (t : Int) (s : Store) : Step s (sync_active_sessions gf t s)
  | recon (live : List ((Nat × Nat) × Nat)) (t : Int) (s : Store) :
      Step s (reconcile_active_sessions live t s)
  | resets (d : LocalDate) (t : Int) (s : Store) : Step s (handle_periodic_resets d t s)
  | clear (g : Nat) (s : Store) : Step s (clear_guild_stats g s)

/-- Stores reachable from the fresh database through engine operations. -/
def Reachable (s : Store) : Prop := Relation.ReflTransGen Step initStore s

/-- All accumulated counters are nonnegative. -/
def nonnegSeconds (rows : List VoiceTimeRow) : Prop := ∀ r ∈ rows, 0 ≤ r.seconds

/-- The alltime bucket dominates each periodic bucket. -/
def alltimeDominates (rows : List VoiceTimeRow) : Prop :=
  ∀ (g u : Nat) (b : Bucket), ¬ b = Bucket.alltime → (vfind rows (g, u, b)).isSome →
    (vfind rows (g, u, Bucket.alltime)).isSome ∧
      secsRows rows (g, u, b) ≤ secsRows rows (g, u, Bucket.alltime)

/-- The auxiliary inductive invariant behind C10. -/
def InvAux (rows : List VoiceTimeRow) : Prop := alltimeDominates rows ∧ nonnegSeconds rows

/-- One SQL statement issued inside a lock-held section by a close, flush or
reconcile. -/
inductive DbStmt
  | upsert (g u : Nat) (b : Bucket) (d ts : Int)
  | delSession (g u : Nat)
  | insSession (g u c : Nat) (t : Int)
  | updStarted (g u : Nat) (t : Int)

/-- Effect of one statement on a store. -/
def execStmt : DbStmt → Store → Store
  | .upsert g u b d ts, s => { s with voice_time := upsertVoice g u b d ts s.voice_time }
  | .delSession g u, s => { s with active_sessions := deleteSession g u s.active_sessions }
  | .insSession g u c t, s =>
    { s with active_sessions := insertSessionIfAbsent g u c t s.active_sessions }
  | .updStarted g u t, s =>
    { s with active_sessions := updateStartedAt g u t s.active_sessions }

/-- Sequential execution of a statement list. -/
def execProg (p : List DbStmt) (s : Store) : Store :=
  p.foldl (fun st c => execStmt c st) s

/-- The statements of `_apply_duration`: one upsert per bucket. -/
def applyDurationStmts (g u : Nat) (d ts : Int) : List DbStmt :=
  BUCKETS.map (fun b => .upsert g u b d ts)

/-- The statements of `_finalize_session_locked`. -/
def finalizeStmts (g u : Nat) (t0 now : Int) : List DbStmt :=
  (if 0 < now - t0 then applyDurationStmts g u (now - t0) now else []) ++ [.delSession g u]

/-- The transaction issued by `end_session` (empty when no session row exists:
the method returns without a commit). -/
def endSessionProg (g u : Nat) (now : Int) (s : Store) : List DbStmt :=
  match findSession s g u with
  | none => []
  | some r => finalizeStmts g u r.started_at now

/-- The transaction issued by the write phase of `sync_active_sessions`
(empty when no row has positive elapsed time). -/
def syncProg (gf : Option Nat) (now : Int) (s : Store) : List DbStmt :=
  let L := durationUpdates (syncRows gf s) now
  if L.isEmpty then []
  else (L.map (fun e => applyDurationStmts e.1 e.2.1 e.2.2 now)).flatten ++
    L.map (fun e => .updStarted e.1 e.2.1 now)

/-- The transaction issued by `reconcile_active_sessions` (empty when there is
nothing to finalize or start). -/
def reconcileProg (live : List ((Nat × Nat) × Nat)) (now : Int) (s : Store) :
    List DbStmt :=
  let fo := finalizeOps s.active_sessions live
  let so := moveStartOps s.active_sessions live ++ freshStartOps s.active_sessions live
  if fo.isEmpty && so.isEmpty then []
  else (fo.map (fun e => finalizeStmts e.1 e.2.1 e.2.2 now)).flatten ++
    so.map (fun e => .insSession e.1 e.2.1 e.2.2 now)

/-- A transaction action: a statement executed on the open connection, or the
`commit` that makes the pending statements durable. -/
inductive TxAct
  | stmt (c : DbStmt)
  | commit

/-- Run transaction actions over a pair (durable state, connection view): a
statement updates only the connection view, a commit publishes the view.  A
fault aborts the open transaction, so only the durable component survives. -/
def txRun (acts : List TxAct) (st : Store × Store) : Store × Store :=
  acts.foldl (fun st a =>
    match a with
    | .stmt c => (st.1, execStmt c st.2)
    | .commit => (st.2, st.2)) st

/-- The durable state after executing the first `k` actions and then failing. -/
def durableAfter (acts : List TxAct) (k : Nat) (s : Store) : Store :=
  (txRun (acts.take k) (s, s)).1

/-- The action list of one logical mutation: its statements followed by the
single `commit` the source issues at the end of the lock-held block, or
nothing when the operation returns early without touching the store. -/
def txOf (p : List DbStmt) : List TxAct :=
  if p.isEmpty then [] else p.map .stmt ++ [.commit]

/-! ### Lemmas: voice_time upserts -/

@[simp]
theorem vkey_update (r : VoiceTimeRow) (x ts : Int) :
    vkey { r with seconds := x, updated_at := ts } = vkey r := rfl

@[simp]
theorem skey_update (r : ActiveSession) (t : Int) :
    skey { r with started_at := t } = skey r := rfl

theorem vfind_nil (k : Nat × Nat × Bucket) : vfind [] k = none := rfl

theorem vfind_cons (r : VoiceTimeRow) (rows : List VoiceTimeRow) (k : Nat × Nat × Bucket) :
    vfind (r :: rows) k = if vkey r = k then some r else vfind rows k := by
  by_cases h : vkey r = k
  · rw [if_pos h]
    exact List.find?_cons_of_pos _ (by simp [h])
  · rw [if_neg h]
    exact List.find?_cons_of_neg _ (by simp [h])

theorem sfind_nil (p : Nat × Nat) : sfind [] p = none := rfl

theorem sfind_cons (r : ActiveSession) (rows : List ActiveSession) (p : Nat × Nat) :
    sfind (r :: rows) p = if skey r = p then some r else sfind rows p := by
  by_cases h : skey r = p
  · rw [if_pos h]
    exact List.find?_cons_of_pos _ (by simp [h])
  · rw [if_neg h]
    exact List.find?_cons_of_neg _ (by simp [h])

theorem vfind_upsert_self (g u : Nat) (b : Bucket) (d ts : Int) (rows : List VoiceTimeRow) :
    vfind (upsertVoice g u b d ts rows) (g, u, b) =
      some (match vfind rows (g, u, b) with
        | some r => { r with seconds := r.seconds + d, updated_at := ts }
        | none => ⟨g, u, b, d, ts⟩) := by
  induction rows with
  | nil => simp [upsertVoice, vfind_nil, vfind_cons, vkey]
  | cons r rest ih =>
    by_cases h : vkey r = (g, u, b)
    · simp [upsertVoice, h, vfind_cons]
    · simp [upsertVoice, h, vfind_cons, ih]

theorem vfind_upsert_ne (g u : Nat) (b : Bucket) (d ts : Int) (rows : List VoiceTimeRow)
    (k : Nat × Nat × Bucket) (h : k ≠ (g, u, b)) :
    vfind (upsertVoice g u b d ts rows) k = vfind rows k := by
  induction rows with
  | nil =>
    simp only [upsertVoice, vfind_nil, vfind_cons]
    rw [if_neg (fun hh => h hh.symm)]
  | cons r rest ih =>
    by_cases hr : vkey r = (g, u, b)
    · have hrw : upsertVoice g u b d ts (r :: rest) =
          { r with seconds := r.seconds + d, updated_at := ts } :: rest := by
        simp [upsertVoice, hr]
      rw [hrw, vfind_cons, vfind_cons, vkey_update]
      rw [if_neg (fun hh => h ((hr.symm.trans hh).symm)),
        if_neg (fun hh => h ((hr.symm.trans hh).symm))]
    · have hrw : upsertVoice g u b d ts (r :: rest) = r :: upsertVoice g u b d ts rest := by
        simp [upsertVoice, hr]
      rw [hrw, vfind_cons, vfind_cons, ih]

theorem secsRows_upsert_self (g u : Nat) (b : Bucket) (d ts : Int) (rows : List VoiceTimeRow) :
    secsRows (upsertVoice g u b d ts rows) (g, u, b) = secsRows rows (g, u, b) + d := by
  rw [secsRows, vfind_upsert_self]
  cases h : vfind rows (g, u, b) <;> simp [secsRows, h]

theorem secsRows_upsert_ne (g u : Nat) (b : Bucket) (d ts : Int) (rows : List VoiceTimeRow)
    (k : Nat × Nat × Bucket) (h : k ≠ (g, u, b)) :
    secsRows (upsertVoice g u b d ts rows) k = secsRows rows k := by
  rw [secsRows, vfind_upsert_ne _ _ _ _ _ _ _ h, secsRows]

theorem applyVoiceRows_eq (g u : Nat) (d ts : Int) (rows : List VoiceTimeRow) :
    applyVoiceRows g u d ts rows =
      upsertVoice g u .alltime d ts (upsertVoice g u .yearly d ts
        (upsertVoice g u .monthly d ts (upsertVoice g u .weekly d ts rows))) := rfl

theorem secsRows_applyVoiceRows (g u : Nat) (d ts : Int) (rows : List VoiceTimeRow)
    (g' u' : Nat) (b' : Bucket) :
    secsRows (applyVoiceRows g u d ts rows) (g', u', b') =
      secsRows rows (g', u', b') + (if g' = g ∧ u' = u then d else 0) := by
  rw [applyVoiceRows_eq]
  by_cases h : g' = g ∧ u' = u
  · obtain ⟨rfl, rfl⟩ := h
    cases b' with
    | weekly =>
      rw [secsRows_upsert_ne _ _ _ _ _ _ _ (by simp), secsRows_upsert_ne _ _ _ _ _ _ _ (by simp),
        secsRows_upsert_ne _ _ _ _ _ _ _ (by simp), secsRows_upsert_self]
      simp
    | monthly =>
      rw [secsRows_upsert_ne _ _ _ _ _ _ _ (by simp), secsRows_upsert_ne _ _ _ _ _ _ _ (by simp),
        secsRows_upsert_self, secsRows_upsert_ne _ _ _ _ _ _ _ (by simp)]
      simp
    | yearly =>
      rw [secsRows_upsert_ne _ _ _ _ _ _ _ (by simp), secsRows_upsert_self,
        secsRows_upsert_ne _ _ _ _ _ _ _ (by simp), secsRows_upsert_ne _ _ _ _ _ _ _ (by simp)]
      simp
    | alltime =>
      rw [secsRows_upsert_self, secsRows_upsert_ne _ _ _ _ _ _ _ (by simp),
        secsRows_upsert_ne _ _ _ _ _ _ _ (by simp), secsRows_upsert_ne _ _ _ _ _ _ _ (by simp)]
      simp
  · have h1 : ∀ b0 : Bucket, ((g', u', b') : Nat × Nat × Bucket) ≠ (g, u, b0) := by
      intro b0 hEq
      exact h ⟨congrArg (·.1) hEq, congrArg (·.2.1) hEq⟩
    rw [secsRows_upsert_ne _ _ _ _ _ _ _ (h1 _), secsRows_upsert_ne _ _ _ _ _ _ _ (h1 _),
      secsRows_upsert_ne _ _ _ _ _ _ _ (h1 _), secsRows_upsert_ne _ _ _ _ _ _ _ (h1 _)]
    simp [h]

theorem secondsOf_apply_duration (g u : Nat) (d ts : Int) (s : Store) (g' u' : Nat) (b' : Bucket) :
    secondsOf (apply_duration g u d ts s) g' u' b' =
      secondsOf s g' u' b' + (if g' = g ∧ u' = u then d else 0) := by
  simp [secondsOf, apply_duration, secsRows_applyVoiceRows]

@[simp]
theorem apply_duration_active (g u : Nat) (d ts : Int) (s : Store) :
    (apply_duration g u d ts s).active_sessions = s.active_sessions := rfl

@[simp]
theorem apply_duration_metadata (g u : Nat) (d ts : Int) (s : Store) :
    (apply_duration g u d ts s).metadata = s.metadata := rfl

/-! ### Lemmas: active_sessions operations -/

theorem sfind_key (rows : List ActiveSession) (p : Nat × Nat) (r : ActiveSession)
    (h : sfind rows p = some r) : skey r = p := by
  have := List.find?_some h
  simpa using this

theorem insertSessionIfAbsent_eq (g u c : Nat) (t : Int) (rows : List ActiveSession) :
    insertSessionIfAbsent g u c t rows =
      if (sfind rows (g, u)).isSome then rows else rows ++ [⟨g, u, c, t⟩] := by
  induction rows with
  | nil => simp [insertSessionIfAbsent, sfind_nil]
  | cons r rest ih =>
    by_cases h : skey r = (g, u)
    · simp [insertSessionIfAbsent, h, sfind_cons]
    · by_cases h2 : (sfind rest (g, u)).isSome
      · simp [insertSessionIfAbsent, h, sfind_cons, ih, h2]
      · simp [insertSessionIfAbsent, h, sfind_cons, ih, h2]

theorem deleteSession_cons (g u : Nat) (r : ActiveSession) (rest : List ActiveSession) :
    deleteSession g u (r :: rest) =
      if skey r = (g, u) then deleteSession g u rest else r :: deleteSession g u rest := by
  by_cases h : skey r = (g, u) <;> simp [deleteSession, h]

theorem sessionsForRows_cons (r : ActiveSession) (rest : List ActiveSession) (p : Nat × Nat) :
    sessionsForRows (r :: rest) p =
      if skey r = p then r :: sessionsForRows rest p else sessionsForRows rest p := by
  by_cases h : skey r = p <;> simp [sessionsForRows, h]

theorem updateStartedAt_cons (g u : Nat) (t : Int) (r : ActiveSession)
    (rest : List ActiveSession) :
    updateStartedAt g u t (r :: rest) =
      (if skey r = (g, u) then { r with started_at := t } else r) :: updateStartedAt g u t rest := by
  simp [updateStartedAt]

theorem sessionsForRows_delete_self (g u : Nat) (rows : List ActiveSession) :
    sessionsForRows (deleteSession g u rows) (g, u) = [] := by
  induction rows with
  | nil => rfl
  | cons r rest ih =>
    rw [deleteSession_cons]
    by_cases h : skey r = (g, u)
    · rw [if_pos h]
      exact ih
    · rw [if_neg h, sessionsForRows_cons, if_neg h]
      exact ih

theorem sessionsForRows_delete_ne (g u : Nat) (rows : List ActiveSession) (p : Nat × Nat)
    (h : p ≠ (g, u)) :
    sessionsForRows (deleteSession g u rows) p = sessionsForRows rows p := by
  induction rows with
  | nil => rfl
  | cons r rest ih =>
    rw [deleteSession_cons]
    by_cases hr : skey r = (g, u)
    · have hp : ¬ skey r = p := fun hh => h ((hh.symm.trans hr))
      rw [if_pos hr, ih, sessionsForRows_cons, if_neg hp]
    · rw [if_neg hr, sessionsForRows_cons, sessionsForRows_cons, ih]

theorem sfind_delete_self (g u : Nat) (rows : List ActiveSession) :
    sfind (deleteSession g u rows) (g, u) = none := by
  induction rows with
  | nil => rfl
  | cons r rest ih =>
    rw [deleteSession_cons]
    by_cases h : skey r = (g, u)
    · rw [if_pos h]
      exact ih
    · rw [if_neg h, sfind_cons, if_neg h]
      exact ih

theorem sfind_delete_ne (g u : Nat) (rows : List ActiveSession) (p : Nat × Nat)
    (h : p ≠ (g, u)) :
    sfind (deleteSession g u rows) p = sfind rows p := by
  induction rows with
  | nil => rfl
  | cons r rest ih =>
    rw [deleteSession_cons]
    by_cases hr : skey r = (g, u)
    · have hp : ¬ skey r = p := fun hh => h (hh.symm.trans hr)
      rw [if_pos hr, ih, sfind_cons, if_neg hp]
    · rw [if_neg hr, sfind_cons, sfind_cons, ih]

theorem sfind_update (g u : Nat) (t : Int) (rows : List ActiveSession) (p : Nat × Nat) :
    sfind (updateStartedAt g u t rows) p =
      (sfind rows p).map (fun r => if skey r = (g, u) then { r with started_at := t } else r) := by
  induction rows with
  | nil => rfl
  | cons r rest ih =>
    rw [updateStartedAt_cons]
    by_cases hg : skey r = (g, u)
    · rw [if_pos hg, sfind_cons, sfind_cons, skey_update]
      by_cases hp : skey r = p
      · rw [if_pos hp, if_pos hp]
        simp [hg]
      · rw [if_neg hp, if_neg hp]
        exact ih
    · rw [if_neg hg, sfind_cons, sfind_cons]
      by_cases hp : skey r = p
      · rw [if_pos hp, if_pos hp]
        simp [hg]
      · rw [if_neg hp, if_neg hp]
        exact ih

theorem updateStartedAt_idTriple (g u : Nat) (t : Int) (rows : List ActiveSession) :
    (updateStartedAt g u t rows).map idTriple = rows.map idTriple := by
  induction rows with
  | nil => rfl
  | cons r rest ih =>
    by_cases h : skey r = (g, u)
    · simpa [updateStartedAt, idTriple, h] using ih
    · simpa [updateStartedAt, idTriple, h] using ih

/-! ### Lemmas: folds used by sync and reconcile -/

theorem creditsFold_cons (e : Nat × Nat × Int) (L : List (Nat × Nat × Int)) (now : Int)
    (s : Store) :
    creditsFold (e :: L) now s = creditsFold L now (apply_duration e.1 e.2.1 e.2.2 now s) := rfl

theorem creditsFold_voice (L : List (Nat × Nat × Int)) (now : Int) (s : Store) :
    (creditsFold L now s).voice_time =
      L.foldl (fun acc e => applyVoiceRows e.1 e.2.1 e.2.2 now acc) s.voice_time := by
  induction L generalizing s with
  | nil => rfl
  | cons e L' ih =>
    rw [creditsFold_cons, ih, List.foldl_cons]
    rfl

theorem creditsFold_active (L : List (Nat × Nat × Int)) (now : Int) (s : Store) :
    (creditsFold L now s).active_sessions = s.active_sessions := by
  induction L generalizing s with
  | nil => rfl
  | cons e L' ih =>
    rw [creditsFold_cons, ih]
    rfl

theorem creditsFold_metadata (L : List (Nat × Nat × Int)) (now : Int) (s : Store) :
    (creditsFold L now s).metadata = s.metadata := by
  induction L generalizing s with
  | nil => rfl
  | cons e L' ih =>
    rw [creditsFold_cons, ih]
    rfl

theorem secsRows_applyFold (L : List (Nat × Nat × Int)) (now : Int)
    (rows : List VoiceTimeRow) (g u : Nat) (b : Bucket)
    (hnd : (L.map (fun e => (e.1, e.2.1))).Nodup) :
    secsRows (L.foldl (fun acc e => applyVoiceRows e.1 e.2.1 e.2.2 now acc) rows) (g, u, b) =
      secsRows rows (g, u, b) +
        (match L.find? (fun e => (e.1, e.2.1) = (g, u)) with
         | some e => e.2.2
         | none => 0) := by
  induction L generalizing rows with
  | nil => simp
  | cons e L' ih =>
    have hnd' : (L'.map (fun e => (e.1, e.2.1))).Nodup := (List.nodup_cons.mp hnd).2
    have hhead : (e.1, e.2.1) ∉ L'.map (fun e => (e.1, e.2.1)) := (List.nodup_cons.mp hnd).1
    rw [List.foldl_cons, ih _ hnd', secsRows_applyVoiceRows]
    by_cases he : g = e.1 ∧ u = e.2.1
    · have hfind : L'.find? (fun x => (x.1, x.2.1) = (g, u)) = none := by
        rw [List.find?_eq_none]
        intro x hx hpx
        have hxk : (x.1, x.2.1) = (g, u) := by simpa using hpx
        exact hhead (by
          rw [show ((e.1, e.2.1) : Nat × Nat) = (g, u) by rw [he.1, he.2]]
          exact hxk ▸ List.mem_map_of_mem _ hx)
      rw [if_pos he, hfind, List.find?_cons_of_pos _ (by simp [he.1, he.2])]
      simp
    · have hne : ¬ ((e.1, e.2.1) = (g, u)) := fun hh => by
        have h1 : e.1 = g := congrArg Prod.fst hh
        have h2 : e.2.1 = u := congrArg (fun q => q.2) hh
        exact he ⟨h1.symm, h2.symm⟩
      rw [if_neg he, List.find?_cons_of_neg _ (by simpa using hne)]
      cases hc : L'.find? (fun x => (x.1, x.2.1) = (g, u)) <;> simp [hc]

theorem updateFold_idTriple (t : Int) (L : List (Nat × Nat × Int)) (rows : List ActiveSession) :
    (L.foldl (fun acc e => updateStartedAt e.1 e.2.1 t acc) rows).map idTriple =
      rows.map idTriple := by
  induction L generalizing rows with
  | nil => rfl
  | cons e L' ih =>
    rw [List.foldl_cons, ih, updateStartedAt_idTriple]

theorem sfind_updateFold (t : Int) (L : List (Nat × Nat × Int)) (rows : List ActiveSession)
    (p : Nat × Nat) :
    sfind (L.foldl (fun acc e => updateStartedAt e.1 e.2.1 t acc) rows) p =
      if L.any (fun e => (e.1, e.2.1) = p) then
        (sfind rows p).map (fun r => { r with started_at := t })
      else sfind rows p := by
  induction L generalizing rows with
  | nil => simp
  | cons e L' ih =>
    rw [List.foldl_cons, ih, sfind_update]
    cases hr : sfind rows p with
    | none => simp
    | some r =>
      have hk := sfind_key _ _ _ hr
      by_cases he : (e.1, e.2.1) = p
      · have hcond : skey r = (e.1, e.2.1) := hk.trans he.symm
        by_cases hL : L'.any (fun x => decide ((x.1, x.2.1) = p)) <;>
          simp [List.any_cons, he, hcond, hL]
      · have hcond : ¬ skey r = (e.1, e.2.1) := fun hh => he (hh.symm.trans hk)
        by_cases hL : L'.any (fun x => decide ((x.1, x.2.1) = p)) <;>
          simp [List.any_cons, he, hcond, hL]

/-! ### Lemmas: session lifecycle operations -/

theorem finalizeSession_voice (g u : Nat) (t0 now : Int) (s : Store) :
    (finalizeSession g u t0 now s).voice_time =
      if 0 < now - t0 then applyVoiceRows g u (now - t0) now s.voice_time
      else s.voice_time := by
  by_cases h : 0 < now - t0 <;> simp [finalizeSession, apply_duration, h]

theorem finalizeSession_active (g u : Nat) (t0 now : Int) (s : Store) :
    (finalizeSession g u t0 now s).active_sessions = deleteSession g u s.active_sessions := by
  by_cases h : 0 < now - t0 <;> simp [finalizeSession, h]

theorem finalizeSession_metadata (g u : Nat) (t0 now : Int) (s : Store) :
    (finalizeSession g u t0 now s).metadata = s.metadata := by
  by_cases h : 0 < now - t0 <;> simp [finalizeSession, h]

@[simp]
theorem start_session_voice (g u c : Nat) (t : Int) (s : Store) :
    (start_session g u c t s).voice_time = s.voice_time := rfl

@[simp]
theorem start_session_metadata (g u c : Nat) (t : Int) (s : Store) :
    (start_session g u c t s).metadata = s.metadata := rfl

theorem end_session_eq_finalize (s : Store) (g u : Nat) (now : Int) (r : ActiveSession)
    (hfind : findSession s g u = some r) :
    end_session g u now s = finalizeSession g u r.started_at now s := by
  simp [end_session, hfind]

theorem sessionsForRows_append (xs ys : List ActiveSession) (p : Nat × Nat) :
    sessionsForRows (xs ++ ys) p = sessionsForRows xs p ++ sessionsForRows ys p := by
  simp [sessionsForRows, List.filter_append]

theorem sessionsForRows_eq_nil_of_sfind_none (rows : List ActiveSession) (p : Nat × Nat)
    (h : sfind rows p = none) : sessionsForRows rows p = [] := by
  induction rows with
  | nil => rfl
  | cons r rest ih =>
    rw [sfind_cons] at h
    by_cases hr : skey r = p
    · rw [if_pos hr] at h
      exact absurd h (by simp)
    · rw [if_neg hr] at h
      rw [sessionsForRows_cons, if_neg hr]
      exact ih h

theorem sfind_append_right (xs ys : List ActiveSession) (p : Nat × Nat)
    (h : sfind xs p = none) : sfind (xs ++ ys) p = sfind ys p := by
  induction xs with
  | nil => rfl
  | cons r rest ih =>
    rw [sfind_cons] at h
    by_cases hr : skey r = p
    · rw [if_pos hr] at h
      exact absurd h (by simp)
    · rw [if_neg hr] at h
      rw [List.cons_append, sfind_cons, if_neg hr]
      exact ih h

/-! ### C1, C6, C7 -/

/-- C1: for a stored ActiveSession of (g, u) with a positive elapsed time
`now - started_at`, running `end_session` at `now` and then `start_session`
into channel B at `now2` increases all four buckets by exactly the elapsed
time (in the integer-second clock the credit is exact, hence within the 1s
truncation tolerance), and leaves exactly one ActiveSession row for (g, u),
pointing at B with started_at equal to the start call's time. -/
theorem end_then_start_conserves_elapsed
    (s : Store) (g u B : Nat) (now now2 : Int) (r : ActiveSession)
    (hfind : findSession s g u = some r) (hpos : 0 < now - r.started_at) :
    (∀ b : Bucket,
      secondsOf (start_session g u B now2 (end_session g u now s)) g u b =
        secondsOf s g u b + (now - r.started_at)) ∧
    sessionsFor (start_session g u B now2 (end_session g u now s)) g u =
      [⟨g, u, B, now2⟩] := by
  rw [end_session_eq_finalize s g u now r hfind]
  constructor
  · intro b
    show secsRows (start_session g u B now2 (finalizeSession g u r.started_at now s)).voice_time
        (g, u, b) = _
    rw [start_session_voice, finalizeSession_voice, if_pos hpos, secsRows_applyVoiceRows]
    simp [secondsOf]
  · show sessionsForRows
      (insertSessionIfAbsent g u B now2
        (finalizeSession g u r.started_at now s).active_sessions) (g, u) = _
    rw [finalizeSession_active, insertSessionIfAbsent_eq, sfind_delete_self]
    simp only [Option.isSome_none, Bool.false_eq_true, if_false]
    rw [sessionsForRows_append, sessionsForRows_delete_self]
    simp [sessionsForRows, skey]

/-- Witness for C1 at a concrete store: one session for guild 1, user 7 in
channel 5 started at time 100, ended at 700 and restarted in channel 9. -/
theorem end_then_start_conserves_elapsed_witness :
    (∀ b : Bucket,
      secondsOf (start_session 1 7 9 700 (end_session 1 7 700
        ⟨[], [⟨1, 7, 5, 100⟩], []⟩)) 1 7 b =
        secondsOf ⟨[], [⟨1, 7, 5, 100⟩], []⟩ 1 7 b + (700 - 100)) ∧
    sessionsFor (start_session 1 7 9 700 (end_session 1 7 700
      ⟨[], [⟨1, 7, 5, 100⟩], []⟩)) 1 7 = [⟨1, 7, 9, 700⟩] :=
  end_then_start_conserves_elapsed ⟨[], [⟨1, 7, 5, 100⟩], []⟩ 1 7 9 700 700
    ⟨1, 7, 5, 100⟩ rfl (by decide)

/-- C6: starting twice in a row for a pair with no prior session leaves exactly
one ActiveSession row, carrying the first call's channel and started_at; the
second call is a silent no-op on the whole store. -/
theorem start_session_idempotent
    (s : Store) (g u c1 c2 : Nat) (t1 t2 : Int)
    (habs : findSession s g u = none) :
    sessionsFor (start_session g u c2 t2 (start_session g u c1 t1 s)) g u =
      [⟨g, u, c1, t1⟩] ∧
    start_session g u c2 t2 (start_session g u c1 t1 s) = start_session g u c1 t1 s := by
  have habs' : sfind s.active_sessions (g, u) = none := habs
  have h1 : (start_session g u c1 t1 s).active_sessions =
      s.active_sessions ++ [⟨g, u, c1, t1⟩] := by
    show insertSessionIfAbsent g u c1 t1 s.active_sessions = _
    rw [insertSessionIfAbsent_eq, habs']
    rfl
  have h2 : sfind (start_session g u c1 t1 s).active_sessions (g, u) =
      some ⟨g, u, c1, t1⟩ := by
    rw [h1, sfind_append_right _ _ _ habs']
    simp [sfind_cons, skey]
  have h3 : insertSessionIfAbsent g u c2 t2 (start_session g u c1 t1 s).active_sessions =
      (start_session g u c1 t1 s).active_sessions := by
    rw [insertSessionIfAbsent_eq, h2]
    rfl
  constructor
  · show sessionsForRows
      (insertSessionIfAbsent g u c2 t2 (start_session g u c1 t1 s).active_sessions) (g, u) = _
    rw [h3, h1, sessionsForRows_append, sessionsForRows_eq_nil_of_sfind_none _ _ habs']
    simp [sessionsForRows, skey]
  · show Store.mk (start_session g u c1 t1 s).voice_time
      (insertSessionIfAbsent g u c2 t2 (start_session g u c1 t1 s).active_sessions)
      (start_session g u c1 t1 s).metadata = start_session g u c1 t1 s
    rw [h3]

/-- Witness for C6: an empty store, two starts for (1, 7). -/
theorem start_session_idempotent_witness :
    sessionsFor (start_session 1 7 4 50 (start_session 1 7 3 40 ⟨[], [], []⟩)) 1 7 =
      [⟨1, 7, 3, 40⟩] ∧
    start_session 1 7 4 50 (start_session 1 7 3 40 ⟨[], [], []⟩) =
      start_session 1 7 3 40 ⟨[], [], []⟩ :=
  start_session_idempotent ⟨[], [], []⟩ 1 7 3 4 40 50 rfl

/-- C7: a call whose computed elapsed time is nonpositive credits nothing:
`end_session` on a session with `now - started_at ≤ 0` leaves `voice_time`
untouched, and `sync_active_sessions` whose selected rows all have
nonpositive elapsed time leaves the whole store untouched. -/
theorem nonpositive_elapsed_credits_nothing
    (s : Store) (g u : Nat) (gf : Option Nat) (now : Int) :
    (∀ r : ActiveSession, findSession s g u = some r → now - r.started_at ≤ 0 →
      (end_session g u now s).voice_time = s.voice_time) ∧
    ((∀ r ∈ syncRows gf s, now - r.started_at ≤ 0) →
      sync_active_sessions gf now s = s) := by
  constructor
  · intro r hfind hle
    rw [end_session_eq_finalize s g u now r hfind, finalizeSession_voice,
      if_neg (by omega)]
  · intro hall
    have hnil : durationUpdates (syncRows gf s) now = [] := by
      rw [durationUpdates, List.filterMap_eq_nil_iff]
      intro r hr
      rw [if_neg (by have := hall r hr; omega)]
    rw [sync_active_sessions, syncWrite, hnil]
    rfl

/-- Witness for C7: a session started at time 100 observed at time 100
(zero elapsed) is closed without credit and flushed without any change. -/
theorem nonpositive_elapsed_credits_nothing_witness :
    (end_session 1 7 100 ⟨[], [⟨1, 7, 5, 100⟩], []⟩).voice_time =
      (⟨[], [⟨1, 7, 5, 100⟩], []⟩ : Store).voice_time ∧
    sync_active_sessions none 100 ⟨[], [⟨1, 7, 5, 100⟩], []⟩ =
      ⟨[], [⟨1, 7, 5, 100⟩], []⟩ :=
  ⟨(nonpositive_elapsed_credits_nothing ⟨[], [⟨1, 7, 5, 100⟩], []⟩ 1 7 none 100).1
      ⟨1, 7, 5, 100⟩ rfl (by decide),
    (nonpositive_elapsed_credits_nothing ⟨[], [⟨1, 7, 5, 100⟩], []⟩ 1 7 none 100).2
      (by intro r hr; simp [syncRows, guildMatch] at hr; rw [hr]; decide)⟩

/-! ### C8: rank query -/

/-- C8: `fetch_user_position` returns nothing when the user has no row for the
bucket, and otherwise the stored seconds paired with rank = 1 + the number of
voice_time rows of the same (guild, bucket) with strictly greater seconds. -/
theorem fetch_user_position_correct (s : Store) (g u : Nat) (b : Bucket) :
    (vfind s.voice_time (g, u, b) = none → fetch_user_position g u b s = none) ∧
    (∀ r : VoiceTimeRow, vfind s.voice_time (g, u, b) = some r →
      fetch_user_position g u b s =
        some (r.seconds,
          1 + s.voice_time.countP (fun r2 =>
            r2.guild_id = g ∧ r2.bucket = b ∧ r.seconds < r2.seconds))) := by
  constructor
  · intro hnone
    simp [fetch_user_position, hnone]
  · intro r hr
    have hk : vkey r = (g, u, b) := by
      have := List.find?_some hr
      simpa using this
    obtain ⟨hg, hu, hb⟩ : r.guild_id = g ∧ r.user_id = u ∧ r.bucket = b := by
      simpa [vkey, Prod.ext_iff] using hk
    subst hg
    subst hb
    simp [fetch_user_position, hr, List.countP_eq_length_filter, Nat.add_comm]

/-- Witness for C8: with peers holding 500, 300, 50, 10 seconds, the user with
300 seconds has rank 2; and an empty store yields nothing. -/
theorem fetch_user_position_correct_witness :
    fetch_user_position 1 2 Bucket.weekly
      ⟨[⟨1, 1, .weekly, 500, 0⟩, ⟨1, 2, .weekly, 300, 0⟩, ⟨1, 3, .weekly, 50, 0⟩,
        ⟨1, 4, .weekly, 10, 0⟩], [], []⟩ = some (300, 2) ∧
    fetch_user_position 1 2 Bucket.weekly ⟨[], [], []⟩ = none :=
  ⟨((fetch_user_position_correct
      ⟨[⟨1, 1, .weekly, 500, 0⟩, ⟨1, 2, .weekly, 300, 0⟩, ⟨1, 3, .weekly, 50, 0⟩,
        ⟨1, 4, .weekly, 10, 0⟩], [], []⟩ 1 2 Bucket.weekly).2
      ⟨1, 2, .weekly, 300, 0⟩ rfl).trans (by decide),
    (fetch_user_position_correct ⟨[], [], []⟩ 1 2 Bucket.weekly).1 rfl⟩

/-! ### C5: flush semantics -/

theorem durationUpdates_cons (r : ActiveSession) (rest : List ActiveSession) (now : Int) :
    durationUpdates (r :: rest) now =
      if 0 < now - r.started_at then
        (r.guild_id, r.user_id, now - r.started_at) :: durationUpdates rest now
      else durationUpdates rest now := by
  by_cases h : 0 < now - r.started_at
  · simp only [durationUpdates, List.filterMap_cons, if_pos h]
  · simp only [durationUpdates, List.filterMap_cons, if_neg h]

theorem durationUpdates_keys (rows : List ActiveSession) (now : Int) :
    (durationUpdates rows now).map (fun e => (e.1, e.2.1)) =
      (rows.filter (fun r => 0 < now - r.started_at)).map skey := by
  induction rows with
  | nil => rfl
  | cons r rest ih =>
    rw [durationUpdates_cons, List.filter_cons]
    by_cases h : 0 < now - r.started_at
    · rw [if_pos h, if_pos (by simpa using h)]
      simp only [List.map_cons, ih]
      rfl
    · rw [if_neg h, if_neg (by simpa using h), ih]

theorem sfind_of_mem_nodup (rows : List ActiveSession) (r : ActiveSession)
    (hnd : (rows.map skey).Nodup) (hr : r ∈ rows) : sfind rows (skey r) = some r := by
  induction rows with
  | nil => exact absurd hr (by simp)
  | cons r0 rest ih =>
    rw [List.map_cons] at hnd
    obtain ⟨hnotin, hndrest⟩ := List.nodup_cons.mp hnd
    rcases List.mem_cons.mp hr with h | h
    · subst h
      rw [sfind_cons, if_pos rfl]
    · have hne : skey r0 ≠ skey r := by
        intro hh
        exact hnotin (hh ▸ List.mem_map_of_mem skey h)
      rw [sfind_cons, if_neg hne]
      exact ih hndrest h

theorem durationUpdates_find (rows : List ActiveSession) (now : Int)
    (hnd : (rows.map skey).Nodup) (r : ActiveSession) (hr : r ∈ rows)
    (hpos : 0 < now - r.started_at) :
    (durationUpdates rows now).find? (fun e => (e.1, e.2.1) = skey r) =
      some (r.guild_id, r.user_id, now - r.started_at) := by
  induction rows with
  | nil => exact absurd hr (by simp)
  | cons r0 rest ih =>
    rw [List.map_cons] at hnd
    obtain ⟨hnotin, hndrest⟩ := List.nodup_cons.mp hnd
    rw [durationUpdates_cons]
    rcases List.mem_cons.mp hr with h | h
    · subst h
      rw [if_pos hpos]
      exact List.find?_cons_of_pos _ (by simp [skey])
    · have hne : skey r0 ≠ skey r := by
        intro hh
        exact hnotin (hh ▸ List.mem_map_of_mem skey h)
      by_cases h0 : 0 < now - r0.started_at
      · rw [if_pos h0]
        rw [List.find?_cons_of_neg _ (by simpa [skey] using hne)]
        exact ih hndrest h
      · rw [if_neg h0]
        exact ih hndrest h

/-- C5: a flush credits every session whose elapsed time is positive with
exactly that amount in all four buckets and advances its started_at to `now`,
while the multiset of (guild, user, channel) session identities is unchanged —
no session is closed.  `hnd` is the primary-key uniqueness of the
active_sessions table. -/
theorem sync_flushes_without_closing
    (s : Store) (gf : Option Nat) (now : Int)
    (hnd : (s.active_sessions.map skey).Nodup) :
    ((sync_active_sessions gf now s).active_sessions.map idTriple =
      s.active_sessions.map idTriple) ∧
    (∀ r ∈ s.active_sessions, guildMatch gf r.guild_id → 0 < now - r.started_at →
      (∀ b : Bucket,
        secondsOf (sync_active_sessions gf now s) r.guild_id r.user_id b =
          secondsOf s r.guild_id r.user_id b + (now - r.started_at)) ∧
      sfind (sync_active_sessions gf now s).active_sessions (skey r) =
        some { r with started_at := now }) := by
  have hndrows : ((syncRows gf s).map skey).Nodup :=
    ((List.filter_sublist _).map skey).nodup hnd
  have hndL : ((durationUpdates (syncRows gf s) now).map (fun e => (e.1, e.2.1))).Nodup := by
    rw [durationUpdates_keys]
    exact ((List.filter_sublist _).map skey).nodup hndrows
  constructor
  · by_cases hL : (durationUpdates (syncRows gf s) now).isEmpty
    · rw [sync_active_sessions, syncWrite]
      simp only [hL, if_true]
    · rw [sync_active_sessions, syncWrite]
      simp only [hL, Bool.false_eq_true, if_false]
      rw [updateFold_idTriple, creditsFold_active]
  · intro r hr hgm hpos
    have hrow : r ∈ syncRows gf s := List.mem_filter.mpr ⟨hr, by simp [hgm]⟩
    have hfind := durationUpdates_find (syncRows gf s) now hndrows r hrow hpos
    have hLne : ¬ (durationUpdates (syncRows gf s) now).isEmpty := by
      intro hemp
      rw [List.isEmpty_iff.mp hemp] at hfind
      exact absurd hfind (by simp)
    constructor
    · intro b
      show secsRows (sync_active_sessions gf now s).voice_time (r.guild_id, r.user_id, b) = _
      have hvt : (sync_active_sessions gf now s).voice_time =
          (creditsFold (durationUpdates (syncRows gf s) now) now s).voice_time := by
        rw [sync_active_sessions, syncWrite]
        simp only [hLne, Bool.false_eq_true, if_false]
      rw [hvt, creditsFold_voice, secsRows_applyFold _ _ _ _ _ _ hndL]
      have hfind2 : (durationUpdates (syncRows gf s) now).find?
          (fun e => (e.1, e.2.1) = (r.guild_id, r.user_id)) =
          some (r.guild_id, r.user_id, now - r.started_at) := hfind
      rw [hfind2]
      rfl
    · have hsess : (sync_active_sessions gf now s).active_sessions =
          (durationUpdates (syncRows gf s) now).foldl
            (fun acc e => updateStartedAt e.1 e.2.1 now acc) s.active_sessions := by
        rw [sync_active_sessions, syncWrite]
        simp only [hLne, Bool.false_eq_true, if_false]
        rw [creditsFold_active]
      rw [hsess, sfind_updateFold]
      have hany : (durationUpdates (syncRows gf s) now).any
          (fun e => (e.1, e.2.1) = skey r) = true :=
        List.any_eq_true.mpr
          ⟨(r.guild_id, r.user_id, now - r.started_at),
            List.mem_of_find?_eq_some hfind, by simp [skey]⟩
      rw [if_pos hany, sfind_of_mem_nodup _ _ hnd hr]
      rfl

/-- Witness for C5: one session of guild 1, user 7 started at 100, flushed at
700: identities preserved, 600 seconds credited to the alltime bucket. -/
theorem sync_flushes_without_closing_witness :
    ((sync_active_sessions none 700 ⟨[], [⟨1, 7, 5, 100⟩], []⟩).active_sessions.map idTriple =
      ([⟨1, 7, 5, 100⟩] : List ActiveSession).map idTriple) ∧
    secondsOf (sync_active_sessions none 700 ⟨[], [⟨1, 7, 5, 100⟩], []⟩) 1 7 Bucket.alltime =
      secondsOf ⟨[], [⟨1, 7, 5, 100⟩], []⟩ 1 7 Bucket.alltime + (700 - 100) :=
  ⟨(sync_flushes_without_closing ⟨[], [⟨1, 7, 5, 100⟩], []⟩ none 700 (by decide)).1,
    (((sync_flushes_without_closing ⟨[], [⟨1, 7, 5, 100⟩], []⟩ none 700 (by decide)).2
      ⟨1, 7, 5, 100⟩ (by simp) rfl (by decide)).1 Bucket.alltime)⟩

/-! ### C9: the exclusion gate and the sync read/write split

`sync_active_sessions` acquires the lock twice: once for the `SELECT`
(`syncRows`), and again — after releasing it — for the writes (`syncWrite`).
An `end_session` that runs between the two acquisitions operates on the same
snapshot the sync already read, so the elapsed interval is credited by both. -/

/-- C9 counterexample: one session (guild 1, user 7, channel 5) started at
time 0; schedule = sync's locked read phase, then a complete `end_session` at
time 600, then sync's locked write phase.  The 600-second interval is credited
twice: the alltime bucket ends at 1200 where `end_session` alone had credited
600.  This refutes the claim that the gate prevents a concurrent
`end_session` + `sync_active_sessions` pair from double-crediting. -/
theorem sync_end_interleave_counterexample :
    secondsOf (syncWrite (syncRows none ⟨[], [⟨1, 7, 5, 0⟩], []⟩) 600
      (end_session 1 7 600 ⟨[], [⟨1, 7, 5, 0⟩], []⟩)) 1 7 Bucket.alltime = 1200 ∧
    secondsOf (end_session 1 7 600 ⟨[], [⟨1, 7, 5, 0⟩], []⟩) 1 7 Bucket.alltime = 600 := by
  decide

/-- C9 (amended): each individual lock-held statement sequence is atomic (a
section is a single function on the store here), but a logical
`sync_active_sessions` spans two separate critical sections; whenever an
`end_session` for a session with positive elapsed time runs between sync's
read section and its write section, every bucket of that (guild, user) is
credited twice the elapsed interval instead of once. -/
theorem sync_interleaved_end_double_credit
    (s : Store) (g u : Nat) (now : Int) (r : ActiveSession)
    (hnd : (s.active_sessions.map skey).Nodup)
    (hfind : findSession s g u = some r) (hpos : 0 < now - r.started_at) :
    ∀ b : Bucket,
      secondsOf (syncWrite (syncRows none s) now (end_session g u now s)) g u b =
        secondsOf s g u b + 2 * (now - r.started_at) := by
  intro b
  have hrowsEq : syncRows none s = s.active_sessions := by
    simp [syncRows, guildMatch]
  have hkey : skey r = (g, u) := sfind_key _ _ _ hfind
  have hmem : r ∈ s.active_sessions := List.mem_of_find?_eq_some hfind
  have hfindL := durationUpdates_find s.active_sessions now hnd r hmem hpos
  rw [hkey] at hfindL
  have hLne : ¬ (durationUpdates s.active_sessions now).isEmpty := by
    intro hemp
    rw [List.isEmpty_iff.mp hemp] at hfindL
    exact absurd hfindL (by simp)
  have hndL : ((durationUpdates s.active_sessions now).map (fun e => (e.1, e.2.1))).Nodup := by
    rw [durationUpdates_keys]
    exact ((List.filter_sublist _).map skey).nodup hnd
  have hgu : r.guild_id = g ∧ r.user_id = u := by
    simpa [skey, Prod.ext_iff] using hkey
  -- the end_session step credits the interval once
  have hend : ∀ b' : Bucket, secondsOf (end_session g u now s) g u b' =
      secondsOf s g u b' + (now - r.started_at) := by
    intro b'
    rw [end_session_eq_finalize s g u now r hfind]
    show secsRows (finalizeSession g u r.started_at now s).voice_time (g, u, b') = _
    rw [finalizeSession_voice, if_pos hpos, secsRows_applyVoiceRows]
    simp [secondsOf]
  -- the stale write phase credits it a second time
  rw [hrowsEq]
  show secsRows (syncWrite s.active_sessions now (end_session g u now s)).voice_time
    (g, u, b) = _
  have hvt : (syncWrite s.active_sessions now (end_session g u now s)).voice_time =
      (creditsFold (durationUpdates s.active_sessions now) now
        (end_session g u now s)).voice_time := by
    rw [syncWrite]
    simp only [hLne, Bool.false_eq_true, if_false]
  rw [hvt, creditsFold_voice, secsRows_applyFold _ _ _ _ _ _ hndL]
  have hfind2 : (durationUpdates s.active_sessions now).find?
      (fun e => (e.1, e.2.1) = (g, u)) =
      some (r.guild_id, r.user_id, now - r.started_at) := hfindL
  rw [hfind2]
  have := hend b
  show secsRows (end_session g u now s).voice_time (g, u, b) + (now - r.started_at) = _
  rw [show secsRows (end_session g u now s).voice_time (g, u, b) =
    secondsOf (end_session g u now s) g u b from rfl, this]
  ring

/-- Witness for the amended C9 theorem at the counterexample's store. -/
theorem sync_interleaved_end_double_credit_witness :
    secondsOf (syncWrite (syncRows none ⟨[], [⟨1, 7, 5, 0⟩], []⟩) 600
      (end_session 1 7 600 ⟨[], [⟨1, 7, 5, 0⟩], []⟩)) 1 7 Bucket.alltime =
      secondsOf ⟨[], [⟨1, 7, 5, 0⟩], []⟩ 1 7 Bucket.alltime + 2 * (600 - 0) :=
  sync_interleaved_end_double_credit ⟨[], [⟨1, 7, 5, 0⟩], []⟩ 1 7 600 ⟨1, 7, 5, 0⟩
    (by decide) rfl (by decide) Bucket.alltime

/-! ### C4: periodic resets -/

theorem find?_upsertMeta_self (k v : String) (l : List (String × String)) :
    (upsertMeta k v l).find? (fun e => e.1 = k) = some (k, v) := by
  induction l with
  | nil => simp [upsertMeta]
  | cons e rest ih =>
    by_cases h : e.1 = k
    · simp [upsertMeta, h]
    · simp [upsertMeta, h, ih]

theorem find?_upsertMeta_ne (k v : String) (l : List (String × String)) (k' : String)
    (h : k' ≠ k) :
    (upsertMeta k v l).find? (fun e => e.1 = k') = l.find? (fun e => e.1 = k') := by
  have hkv : ¬ ((k, v).1 = k') := fun hh => h hh.symm
  induction l with
  | nil =>
    show List.find? _ [(k, v)] = _
    rw [List.find?_cons_of_neg _ (by simpa using hkv)]
  | cons e rest ih =>
    by_cases he : e.1 = k
    · have hrw : upsertMeta k v (e :: rest) = (k, v) :: rest := by simp [upsertMeta, he]
      have he' : ¬ (e.1 = k') := fun hh => h (hh.symm.trans he)
      rw [hrw, List.find?_cons_of_neg _ (by simpa using hkv),
        List.find?_cons_of_neg _ (by simpa using he')]
    · have hrw : upsertMeta k v (e :: rest) = e :: upsertMeta k v rest := by
        simp [upsertMeta, he]
      by_cases he' : e.1 = k'
      · rw [hrw, List.find?_cons_of_pos _ (by simpa using he'),
          List.find?_cons_of_pos _ (by simpa using he')]
      · rw [hrw, List.find?_cons_of_neg _ (by simpa using he'),
          List.find?_cons_of_neg _ (by simpa using he'), ih]

theorem getMeta_set_self (k v : String) (s : Store) :
    getMeta (set_metadata k v s) k = some v := by
  simp [getMeta, set_metadata, find?_upsertMeta_self]

theorem getMeta_set_ne (k v k' : String) (s : Store) (h : k' ≠ k) :
    getMeta (set_metadata k v s) k' = getMeta s k' := by
  simp [getMeta, set_metadata, find?_upsertMeta_ne k v _ k' h]

@[simp]
theorem set_metadata_voice (k v : String) (s : Store) :
    (set_metadata k v s).voice_time = s.voice_time := rfl

@[simp]
theorem set_metadata_active (k v : String) (s : Store) :
    (set_metadata k v s).active_sessions = s.active_sessions := rfl

/-- C4: per periodic bucket, a qualifying `handle_periodic_resets` tick whose
stored label differs from the computed one deletes exactly that bucket's rows
(across all guilds) and persists the label; any tick whose computed label
equals the stored label leaves the store untouched; hence running a handler
twice on the same local date deletes at most once — the second run is a
no-op.  Stated for the weekly, monthly and yearly handlers that
`handle_periodic_resets` invokes. -/
theorem periodic_resets_once_per_period (s : Store) (d : LocalDate) :
    ((weekday d = 0 → getMeta s "weekly_reset" ≠ some (isoDate d) →
      (handle_weekly_reset d s).voice_time =
        s.voice_time.filter (fun r => ¬ r.bucket = Bucket.weekly) ∧
      getMeta (handle_weekly_reset d s) "weekly_reset" = some (isoDate d) ∧
      (handle_weekly_reset d s).active_sessions = s.active_sessions) ∧
     (getMeta s "weekly_reset" = some (isoDate d) → handle_weekly_reset d s = s) ∧
     handle_weekly_reset d (handle_weekly_reset d s) = handle_weekly_reset d s) ∧
    ((d.day = 1 → getMeta s "monthly_reset" ≠ some (monthLabel d) →
      (handle_monthly_reset d s).voice_time =
        s.voice_time.filter (fun r => ¬ r.bucket = Bucket.monthly) ∧
      getMeta (handle_monthly_reset d s) "monthly_reset" = some (monthLabel d) ∧
      (handle_monthly_reset d s).active_sessions = s.active_sessions) ∧
     (getMeta s "monthly_reset" = some (monthLabel d) → handle_monthly_reset d s = s) ∧
     handle_monthly_reset d (handle_monthly_reset d s) = handle_monthly_reset d s) ∧
    ((d.month = 1 → d.day = 1 → getMeta s "yearly_reset" ≠ some (yearLabel d) →
      (handle_yearly_reset d s).voice_time =
        s.voice_time.filter (fun r => ¬ r.bucket = Bucket.yearly) ∧
      getMeta (handle_yearly_reset d s) "yearly_reset" = some (yearLabel d) ∧
      (handle_yearly_reset d s).active_sessions = s.active_sessions) ∧
     (getMeta s "yearly_reset" = some (yearLabel d) → handle_yearly_reset d s = s) ∧
     handle_yearly_reset d (handle_yearly_reset d s) = handle_yearly_reset d s) := by
  refine ⟨⟨?_, ?_, ?_⟩, ⟨?_, ?_, ?_⟩, ⟨?_, ?_, ?_⟩⟩
  · intro hwd hne
    rw [handle_weekly_reset, if_neg (by simp [hwd]), if_neg hne]
    exact ⟨rfl, getMeta_set_self _ _ _, rfl⟩
  · intro heq
    rw [handle_weekly_reset]
    by_cases hwd : weekday d ≠ 0
    · rw [if_pos hwd]
    · rw [if_neg hwd, if_pos heq]
  · by_cases hwd : weekday d ≠ 0
    · conv_lhs => rw [handle_weekly_reset]
      rw [if_pos hwd]
    · have h2 : getMeta (handle_weekly_reset d s) "weekly_reset" = some (isoDate d) := by
        by_cases heq : getMeta s "weekly_reset" = some (isoDate d)
        · rw [handle_weekly_reset, if_neg hwd, if_pos heq]
          exact heq
        · rw [handle_weekly_reset, if_neg hwd, if_neg heq]
          exact getMeta_set_self _ _ _
      conv_lhs => rw [handle_weekly_reset]
      rw [if_neg hwd, if_pos h2]
  · intro hd hne
    rw [handle_monthly_reset, if_neg (by simp [hd]), if_neg hne]
    exact ⟨rfl, getMeta_set_self _ _ _, rfl⟩
  · intro heq
    rw [handle_monthly_reset]
    by_cases hd : d.day ≠ 1
    · rw [if_pos hd]
    · rw [if_neg hd, if_pos heq]
  · by_cases hd : d.day ≠ 1
    · conv_lhs => rw [handle_monthly_reset]
      rw [if_pos hd]
    · have h2 : getMeta (handle_monthly_reset d s) "monthly_reset" = some (monthLabel d) := by
        by_cases heq : getMeta s "monthly_reset" = some (monthLabel d)
        · rw [handle_monthly_reset, if_neg hd, if_pos heq]
          exact heq
        · rw [handle_monthly_reset, if_neg hd, if_neg heq]
          exact getMeta_set_self _ _ _
      conv_lhs => rw [handle_monthly_reset]
      rw [if_neg hd, if_pos h2]
  · intro hm hd hne
    rw [handle_yearly_reset, if_neg (by simp [hm, hd]), if_neg hne]
    exact ⟨rfl, getMeta_set_self _ _ _, rfl⟩
  · intro heq
    rw [handle_yearly_reset]
    by_cases hg : d.month ≠ 1 ∨ d.day ≠ 1
    · rw [if_pos hg]
    · rw [if_neg hg, if_pos heq]
  · by_cases hg : d.month ≠ 1 ∨ d.day ≠ 1
    · conv_lhs => rw [handle_yearly_reset]
      rw [if_pos hg]
    · have h2 : getMeta (handle_yearly_reset d s) "yearly_reset" = some (yearLabel d) := by
        by_cases heq : getMeta s "yearly_reset" = some (yearLabel d)
        · rw [handle_yearly_reset, if_neg hg, if_pos heq]
          exact heq
        · rw [handle_yearly_reset, if_neg hg, if_neg heq]
          exact getMeta_set_self _ _ _
      conv_lhs => rw [handle_yearly_reset]
      rw [if_neg hg, if_pos h2]

/-- Witness for C4 on 2024-01-01 (a local Monday that is also a month and year
boundary) with one row in each periodic bucket and no stored labels: the
first call deletes the bucket and persists the label, and each handler is
idempotent. -/
theorem periodic_resets_once_per_period_witness :
    ((handle_weekly_reset ⟨2024, 1, 1⟩
        ⟨[⟨1, 7, .weekly, 5, 0⟩, ⟨1, 7, .alltime, 5, 0⟩], [], []⟩).voice_time =
      ([⟨1, 7, .weekly, 5, 0⟩, ⟨1, 7, .alltime, 5, 0⟩] :
        List VoiceTimeRow).filter (fun r => ¬ r.bucket = Bucket.weekly) ∧
      getMeta (handle_weekly_reset ⟨2024, 1, 1⟩
        ⟨[⟨1, 7, .weekly, 5, 0⟩, ⟨1, 7, .alltime, 5, 0⟩], [], []⟩) "weekly_reset" =
        some (isoDate ⟨2024, 1, 1⟩) ∧
      (handle_weekly_reset ⟨2024, 1, 1⟩
        ⟨[⟨1, 7, .weekly, 5, 0⟩, ⟨1, 7, .alltime, 5, 0⟩], [], []⟩).active_sessions = []) ∧
    handle_weekly_reset ⟨2024, 1, 1⟩ (handle_weekly_reset ⟨2024, 1, 1⟩
      ⟨[⟨1, 7, .weekly, 5, 0⟩, ⟨1, 7, .alltime, 5, 0⟩], [], []⟩) =
      handle_weekly_reset ⟨2024, 1, 1⟩
        ⟨[⟨1, 7, .weekly, 5, 0⟩, ⟨1, 7, .alltime, 5, 0⟩], [], []⟩ :=
  ⟨(periodic_resets_once_per_period
      ⟨[⟨1, 7, .weekly, 5, 0⟩, ⟨1, 7, .alltime, 5, 0⟩], [], []⟩ ⟨2024, 1, 1⟩).1.1
      (by decide) (by decide),
    (periodic_resets_once_per_period
      ⟨[⟨1, 7, .weekly, 5, 0⟩, ⟨1, 7, .alltime, 5, 0⟩], [], []⟩ ⟨2024, 1, 1⟩).1.2.2⟩

/-! ### C2: reconciliation -/

theorem find?_eq_none_of_key_not_mem {α κ : Type} [DecidableEq κ] (f : α → κ)
    (l : List α) (p : κ) (h : p ∉ l.map f) : l.find? (fun x => f x = p) = none := by
  rw [List.find?_eq_none]
  intro x hx hpx
  have hfx : f x = p := by simpa using hpx
  exact h (hfx ▸ List.mem_map_of_mem f hx)

theorem any_eq_isSome_find? {α : Type} (p : α → Bool) (l : List α) :
    l.any p = (l.find? p).isSome := by
  induction l with
  | nil => rfl
  | cons a l ih =>
    by_cases h : p a
    · simp [List.any_cons, h, List.find?_cons_of_pos _ h]
    · have hb : p a = false := by simpa using h
      rw [List.any_cons, hb, Bool.false_or, ih, List.find?_cons_of_neg _ (by simp [hb])]

theorem filterMap_keys_sublist {α β κ : Type} (f : α → Option β) (k1 : α → κ) (k2 : β → κ)
    (hf : ∀ a x, f a = some x → k2 x = k1 a) (l : List α) :
    ((l.filterMap f).map k2).Sublist (l.map k1) := by
  induction l with
  | nil => simp
  | cons a l ih =>
    rw [List.filterMap_cons]
    cases hfa : f a with
    | none =>
      rw [List.map_cons]
      exact ih.cons (k1 a)
    | some x =>
      rw [List.map_cons, List.map_cons, hf a x hfa]
      exact ih.cons₂ (k1 a)

theorem finalizeFold_active (fo : List (Nat × Nat × Int)) (now : Int) (s : Store) :
    (fo.foldl (fun st e => finalizeSession e.1 e.2.1 e.2.2 now st) s).active_sessions =
      fo.foldl (fun acc e => deleteSession e.1 e.2.1 acc) s.active_sessions := by
  induction fo generalizing s with
  | nil => rfl
  | cons e fo' ih =>
    rw [List.foldl_cons, List.foldl_cons, ih, finalizeSession_active]

theorem finalizeFold_voice (fo : List (Nat × Nat × Int)) (now : Int) (s : Store) :
    (fo.foldl (fun st e => finalizeSession e.1 e.2.1 e.2.2 now st) s).voice_time =
      fo.foldl (fun acc e =>
        if 0 < now - e.2.2 then applyVoiceRows e.1 e.2.1 (now - e.2.2) now acc else acc)
        s.voice_time := by
  induction fo generalizing s with
  | nil => rfl
  | cons e fo' ih =>
    rw [List.foldl_cons, List.foldl_cons, ih, finalizeSession_voice]

theorem startFold_active (so : List (Nat × Nat × Nat)) (now : Int) (s : Store) :
    (so.foldl (fun st e => start_session e.1 e.2.1 e.2.2 now st) s).active_sessions =
      so.foldl (fun acc e => insertSessionIfAbsent e.1 e.2.1 e.2.2 now acc)
        s.active_sessions := by
  induction so generalizing s with
  | nil => rfl
  | cons e so' ih =>
    rw [List.foldl_cons, List.foldl_cons, ih]
    rfl

theorem startFold_voice (so : List (Nat × Nat × Nat)) (now : Int) (s : Store) :
    (so.foldl (fun st e => start_session e.1 e.2.1 e.2.2 now st) s).voice_time =
      s.voice_time := by
  induction so generalizing s with
  | nil => rfl
  | cons e so' ih =>
    rw [List.foldl_cons, ih]
    rfl

theorem deleteFold_sessionsFor (K : List (Nat × Nat × Int)) (rows : List ActiveSession)
    (p : Nat × Nat) :
    sessionsForRows (K.foldl (fun acc e => deleteSession e.1 e.2.1 acc) rows) p =
      if K.any (fun e => (e.1, e.2.1) = p) then [] else sessionsForRows rows p := by
  induction K generalizing rows with
  | nil => simp
  | cons e K' ih =>
    rw [List.foldl_cons, ih]
    by_cases he : (e.1, e.2.1) = p
    · have hany : ((e :: K').any (fun x => (x.1, x.2.1) = p)) = true :=
        List.any_eq_true.mpr ⟨e, List.mem_cons_self _ _, by simp [he]⟩
      have hdel : sessionsForRows (deleteSession e.1 e.2.1 rows) p = [] := by
        rw [← he]
        exact sessionsForRows_delete_self e.1 e.2.1 rows
      rw [if_pos hany, hdel]
      split <;> rfl
    · rw [sessionsForRows_delete_ne _ _ _ _ (fun hh => he hh.symm)]
      have hstep : ((e :: K').any (fun x => (x.1, x.2.1) = p)) =
          (K'.any (fun x => (x.1, x.2.1) = p)) := by
        rw [List.any_cons, show (decide ((e.1, e.2.1) = p)) = false by simpa using he,
          Bool.false_or]
      rw [hstep]

theorem deleteFold_sfind (K : List (Nat × Nat × Int)) (rows : List ActiveSession)
    (p : Nat × Nat) :
    sfind (K.foldl (fun acc e => deleteSession e.1 e.2.1 acc) rows) p =
      if K.any (fun e => (e.1, e.2.1) = p) then none else sfind rows p := by
  induction K generalizing rows with
  | nil => simp
  | cons e K' ih =>
    rw [List.foldl_cons, ih]
    by_cases he : (e.1, e.2.1) = p
    · have hany : ((e :: K').any (fun x => (x.1, x.2.1) = p)) = true :=
        List.any_eq_true.mpr ⟨e, List.mem_cons_self _ _, by simp [he]⟩
      have hdel : sfind (deleteSession e.1 e.2.1 rows) p = none := by
        rw [← he]
        exact sfind_delete_self e.1 e.2.1 rows
      rw [if_pos hany, hdel]
      split <;> rfl
    · rw [sfind_delete_ne _ _ _ _ (fun hh => he hh.symm)]
      have hstep : ((e :: K').any (fun x => (x.1, x.2.1) = p)) =
          (K'.any (fun x => (x.1, x.2.1) = p)) := by
        rw [List.any_cons, show (decide ((e.1, e.2.1) = p)) = false by simpa using he,
          Bool.false_or]
      rw [hstep]

theorem secsRows_finalizeVoiceFold (fo : List (Nat × Nat × Int)) (now : Int)
    (rows : List VoiceTimeRow) (g u : Nat) (b : Bucket)
    (hnd : (fo.map (fun e => (e.1, e.2.1))).Nodup) :
    secsRows (fo.foldl (fun acc e =>
        if 0 < now - e.2.2 then applyVoiceRows e.1 e.2.1 (now - e.2.2) now acc else acc)
        rows) (g, u, b) =
      secsRows rows (g, u, b) +
        (match fo.find? (fun e => (e.1, e.2.1) = (g, u)) with
         | some e => if 0 < now - e.2.2 then now - e.2.2 else 0
         | none => 0) := by
  induction fo generalizing rows with
  | nil => simp
  | cons e fo' ih =>
    rw [List.map_cons] at hnd
    obtain ⟨hnotin, hnd'⟩ := List.nodup_cons.mp hnd
    rw [List.foldl_cons, ih _ hnd']
    have hstep : secsRows
        (if 0 < now - e.2.2 then applyVoiceRows e.1 e.2.1 (now - e.2.2) now rows else rows)
        (g, u, b) =
        secsRows rows (g, u, b) +
          (if g = e.1 ∧ u = e.2.1 then (if 0 < now - e.2.2 then now - e.2.2 else 0) else 0) := by
      by_cases hpos : 0 < now - e.2.2
      · rw [if_pos hpos, secsRows_applyVoiceRows]
        by_cases hk : g = e.1 ∧ u = e.2.1 <;> simp [hk, hpos]
      · rw [if_neg hpos]
        by_cases hk : g = e.1 ∧ u = e.2.1 <;> simp [hk, hpos]
    rw [hstep]
    by_cases hk : g = e.1 ∧ u = e.2.1
    · have hfind : fo'.find? (fun x => (x.1, x.2.1) = (g, u)) = none := by
        apply find?_eq_none_of_key_not_mem (fun x => (x.1, x.2.1)) fo' (g, u)
        intro hmem
        exact hnotin (by rw [show ((e.1, e.2.1) : Nat × Nat) = (g, u) by rw [hk.1, hk.2]]; exact hmem)
      rw [hfind, List.find?_cons_of_pos _ (by simp [hk.1, hk.2]), if_pos hk]
      simp
    · have hne : ¬ ((e.1, e.2.1) = (g, u)) := fun hh => by
        have h1 : e.1 = g := congrArg Prod.fst hh
        have h2 : e.2.1 = u := congrArg (fun q => q.2) hh
        exact hk ⟨h1.symm, h2.symm⟩
      rw [if_neg hk, List.find?_cons_of_neg _ (by simpa using hne)]
      cases hc : fo'.find? (fun x => (x.1, x.2.1) = (g, u)) <;> simp [hc]

theorem sfind_insert_ne (g u c : Nat) (t : Int) (rows : List ActiveSession) (p : Nat × Nat)
    (h : p ≠ (g, u)) :
    sfind (insertSessionIfAbsent g u c t rows) p = sfind rows p := by
  induction rows with
  | nil =>
    show sfind [⟨g, u, c, t⟩] p = none
    rw [sfind_cons, if_neg (fun hh => h hh.symm)]
    rfl
  | cons r rest ih =>
    by_cases hr : skey r = (g, u)
    · have hrw : insertSessionIfAbsent g u c t (r :: rest) = r :: rest := by
        simp [insertSessionIfAbsent, hr]
      rw [hrw]
    · have hrw : insertSessionIfAbsent g u c t (r :: rest) =
          r :: insertSessionIfAbsent g u c t rest := by
        simp [insertSessionIfAbsent, hr]
      rw [hrw, sfind_cons, sfind_cons, ih]

theorem sessionsForRows_insert_ne (g u c : Nat) (t : Int) (rows : List ActiveSession)
    (p : Nat × Nat) (h : p ≠ (g, u)) :
    sessionsForRows (insertSessionIfAbsent g u c t rows) p = sessionsForRows rows p := by
  induction rows with
  | nil =>
    show sessionsForRows [⟨g, u, c, t⟩] p = []
    rw [sessionsForRows_cons, if_neg (fun hh => h hh.symm)]
    rfl
  | cons r rest ih =>
    by_cases hr : skey r = (g, u)
    · have hrw : insertSessionIfAbsent g u c t (r :: rest) = r :: rest := by
        simp [insertSessionIfAbsent, hr]
      rw [hrw]
    · have hrw : insertSessionIfAbsent g u c t (r :: rest) =
          r :: insertSessionIfAbsent g u c t rest := by
        simp [insertSessionIfAbsent, hr]
      rw [hrw, sessionsForRows_cons, sessionsForRows_cons, ih]

theorem insertFold_sessionsFor_none (so : List (Nat × Nat × Nat)) (now : Int)
    (rows : List ActiveSession) (p : Nat × Nat)
    (hfind : so.find? (fun e => (e.1, e.2.1) = p) = none) :
    sessionsForRows
        (so.foldl (fun acc e => insertSessionIfAbsent e.1 e.2.1 e.2.2 now acc) rows) p =
      sessionsForRows rows p := by
  induction so generalizing rows with
  | nil => rfl
  | cons e so' ih =>
    by_cases he : (e.1, e.2.1) = p
    · rw [List.find?_cons_of_pos _ (by simp [he])] at hfind
      exact absurd hfind (by simp)
    · rw [List.find?_cons_of_neg _ (by simpa using he)] at hfind
      rw [List.foldl_cons, ih _ hfind,
        sessionsForRows_insert_ne _ _ _ _ _ _ (fun hh => he hh.symm)]

theorem insertFold_sessionsFor_some (so : List (Nat × Nat × Nat)) (now : Int)
    (rows : List ActiveSession) (p : Nat × Nat) (x : Nat × Nat × Nat)
    (hnd : (so.map (fun e => (e.1, e.2.1))).Nodup)
    (hfind : so.find? (fun e => (e.1, e.2.1) = p) = some x) :
    sessionsForRows
        (so.foldl (fun acc e => insertSessionIfAbsent e.1 e.2.1 e.2.2 now acc) rows) p =
      if (sfind rows p).isSome then sessionsForRows rows p
      else [⟨x.1, x.2.1, x.2.2, now⟩] := by
  induction so generalizing rows with
  | nil => exact absurd hfind (by simp)
  | cons e so' ih =>
    rw [List.map_cons] at hnd
    obtain ⟨hnotin, hnd'⟩ := List.nodup_cons.mp hnd
    by_cases he : (e.1, e.2.1) = p
    · rw [List.find?_cons_of_pos _ (by simp [he])] at hfind
      have hex : e = x := by simpa using hfind
      subst hex
      have hfind' : so'.find? (fun y => (y.1, y.2.1) = p) = none := by
        apply find?_eq_none_of_key_not_mem (fun y => (y.1, y.2.1)) so' p
        intro hmem
        exact hnotin (he ▸ hmem)
      rw [List.foldl_cons, insertFold_sessionsFor_none so' now _ p hfind']
      have hip : insertSessionIfAbsent e.1 e.2.1 e.2.2 now rows =
          if (sfind rows (e.1, e.2.1)).isSome then rows
          else rows ++ [⟨e.1, e.2.1, e.2.2, now⟩] := insertSessionIfAbsent_eq _ _ _ _ _
      by_cases hs : (sfind rows p).isSome
      · rw [if_pos hs, hip, if_pos (by rw [he]; exact hs)]
      · rw [if_neg hs, hip, if_neg (by rw [he]; exact hs)]
        rw [sessionsForRows_append,
          sessionsForRows_eq_nil_of_sfind_none _ _ (by
            cases hv : sfind rows p
            · rfl
            · exact absurd (by rw [hv]; rfl) hs)]
        rw [sessionsForRows_cons]
        have hkx : skey (⟨e.1, e.2.1, e.2.2, now⟩ : ActiveSession) = p := he
        rw [if_pos hkx]
        rfl
    · rw [List.find?_cons_of_neg _ (by simpa using he)] at hfind
      rw [List.foldl_cons, ih _ hnd' hfind,
        sessionsForRows_insert_ne _ _ _ _ _ _ (fun hh => he hh.symm),
        sfind_insert_ne _ _ _ _ _ _ (fun hh => he hh.symm)]

theorem liveLookup_cons (e : (Nat × Nat) × Nat) (live : List ((Nat × Nat) × Nat))
    (p : Nat × Nat) :
    liveLookup (e :: live) p = if e.1 = p then some e.2 else liveLookup live p := by
  by_cases h : e.1 = p
  · rw [if_pos h]
    show ((e :: live).find? (fun x => x.1 = p)).map (·.2) = some e.2
    rw [List.find?_cons_of_pos _ (by simp [h])]
    rfl
  · rw [if_neg h]
    show ((e :: live).find? (fun x => x.1 = p)).map (·.2) =
      (live.find? (fun x => x.1 = p)).map (·.2)
    rw [List.find?_cons_of_neg _ (by simp [h])]

theorem finalizeOps_cons (r : ActiveSession) (rest : List ActiveSession)
    (live : List ((Nat × Nat) × Nat)) :
    finalizeOps (r :: rest) live =
      if liveLookup live (skey r) = some r.channel_id then finalizeOps rest live
      else (r.guild_id, r.user_id, r.started_at) :: finalizeOps rest live := by
  by_cases h : liveLookup live (skey r) = some r.channel_id
  · simp only [finalizeOps, List.filterMap_cons, if_pos h]
  · simp only [finalizeOps, List.filterMap_cons, if_neg h]

theorem moveStartOps_cons_none (r : ActiveSession) (rest : List ActiveSession)
    (live : List ((Nat × Nat) × Nat)) (h : liveLookup live (skey r) = none) :
    moveStartOps (r :: rest) live = moveStartOps rest live := by
  simp only [moveStartOps, List.filterMap_cons, h]

theorem moveStartOps_cons_skip (r : ActiveSession) (rest : List ActiveSession)
    (live : List ((Nat × Nat) × Nat)) (h : liveLookup live (skey r) = some r.channel_id) :
    moveStartOps (r :: rest) live = moveStartOps rest live := by
  simp [moveStartOps, List.filterMap_cons, h]

theorem moveStartOps_cons_entry (r : ActiveSession) (rest : List ActiveSession)
    (live : List ((Nat × Nat) × Nat)) (c : Nat) (h : liveLookup live (skey r) = some c)
    (hc : ¬ c = r.channel_id) :
    moveStartOps (r :: rest) live = (r.guild_id, r.user_id, c) :: moveStartOps rest live := by
  simp only [moveStartOps, List.filterMap_cons, h, if_neg hc]

theorem freshStartOps_cons (rows : List ActiveSession) (e : (Nat × Nat) × Nat)
    (live' : List ((Nat × Nat) × Nat)) :
    freshStartOps rows (e :: live') =
      if rows.any (fun r => skey r = e.1) then freshStartOps rows live'
      else (e.1.1, e.1.2, e.2) :: freshStartOps rows live' := by
  by_cases h : rows.any (fun r => skey r = e.1)
  · simp only [freshStartOps, List.filterMap_cons, if_pos h]
  · simp only [freshStartOps, List.filterMap_cons, if_neg h]

theorem finalizeOps_keys_sublist (rows : List ActiveSession)
    (live : List ((Nat × Nat) × Nat)) :
    ((finalizeOps rows live).map (fun e => (e.1, e.2.1))).Sublist (rows.map skey) := by
  apply filterMap_keys_sublist
  intro a x hax
  by_cases h : liveLookup live (skey a) = some a.channel_id
  · rw [if_pos h] at hax
    exact absurd hax (by simp)
  · rw [if_neg h] at hax
    obtain rfl : (a.guild_id, a.user_id, a.started_at) = x := by simpa using hax
    rfl

theorem moveStartOps_keys_sublist (rows : List ActiveSession)
    (live : List ((Nat × Nat) × Nat)) :
    ((moveStartOps rows live).map (fun e => (e.1, e.2.1))).Sublist (rows.map skey) := by
  apply filterMap_keys_sublist
  intro a x hax
  cases h : liveLookup live (skey a) with
  | none =>
    simp only [h] at hax
    exact absurd hax (by simp)
  | some c =>
    simp only [h] at hax
    by_cases hc : c = a.channel_id
    · rw [if_pos hc] at hax
      exact absurd hax (by simp)
    · rw [if_neg hc] at hax
      obtain rfl : (a.guild_id, a.user_id, c) = x := by simpa using hax
      rfl

theorem freshStartOps_keys_sublist (rows : List ActiveSession)
    (live : List ((Nat × Nat) × Nat)) :
    ((freshStartOps rows live).map (fun e => (e.1, e.2.1))).Sublist
      (live.map (fun e => e.1)) := by
  apply filterMap_keys_sublist
  intro a x hax
  by_cases h : rows.any (fun r => skey r = a.1)
  · simp only [if_pos h] at hax
    exact absurd hax (by simp)
  · simp only [if_neg h] at hax
    obtain rfl : (a.1.1, a.1.2, a.2) = x := by simpa using hax
    rfl

theorem freshStartOps_key_not_recorded (rows : List ActiveSession)
    (live : List ((Nat × Nat) × Nat)) :
    ∀ q ∈ (freshStartOps rows live).map (fun e => (e.1, e.2.1)), q ∉ rows.map skey := by
  intro q hq hqr
  obtain ⟨x, hx, hxk⟩ := List.mem_map.mp hq
  obtain ⟨e, he, hfe⟩ := List.mem_filterMap.mp hx
  by_cases hrec : rows.any (fun r => skey r = e.1)
  · rw [if_pos hrec] at hfe
    exact absurd hfe (by simp)
  · rw [if_neg hrec] at hfe
    obtain rfl : (e.1.1, e.1.2, e.2) = x := by simpa using hfe
    obtain ⟨r, hr, hrk⟩ := List.mem_map.mp hqr
    apply hrec
    refine List.any_eq_true.mpr ⟨r, hr, ?_⟩
    have hq1 : q = e.1 := by rw [← hxk]
    simp [hrk, hq1]

theorem finalizeOps_find (rows : List ActiveSession) (live : List ((Nat × Nat) × Nat))
    (p : Nat × Nat) (hnd : (rows.map skey).Nodup) :
    (finalizeOps rows live).find? (fun e => (e.1, e.2.1) = p) =
      match sfind rows p with
      | some r =>
        if liveLookup live p = some r.channel_id then none
        else some (r.guild_id, r.user_id, r.started_at)
      | none => none := by
  induction rows with
  | nil => rfl
  | cons r0 rest ih =>
    rw [List.map_cons] at hnd
    obtain ⟨hnotin, hnd'⟩ := List.nodup_cons.mp hnd
    rw [finalizeOps_cons]
    by_cases hp : skey r0 = p
    · have hsf : sfind (r0 :: rest) p = some r0 := by rw [sfind_cons, if_pos hp]
      rw [hsf]
      by_cases hlc : liveLookup live (skey r0) = some r0.channel_id
      · have hlp : liveLookup live p = some r0.channel_id := hp ▸ hlc
        rw [if_pos hlc]
        show (finalizeOps rest live).find? (fun e => (e.1, e.2.1) = p) =
          if liveLookup live p = some r0.channel_id then none
          else some (r0.guild_id, r0.user_id, r0.started_at)
        rw [if_pos hlp]
        apply find?_eq_none_of_key_not_mem (fun e => (e.1, e.2.1)) (finalizeOps rest live) p
        intro hmem
        exact hnotin (hp ▸ (finalizeOps_keys_sublist rest live).subset hmem)
      · have hlp : ¬ liveLookup live p = some r0.channel_id := by
          rw [← hp]
          exact hlc
        rw [if_neg hlc, List.find?_cons_of_pos _ (by simpa [skey] using hp)]
        show some (r0.guild_id, r0.user_id, r0.started_at) =
          if liveLookup live p = some r0.channel_id then none
          else some (r0.guild_id, r0.user_id, r0.started_at)
        rw [if_neg hlp]
    · have hsf : sfind (r0 :: rest) p = sfind rest p := by rw [sfind_cons, if_neg hp]
      rw [hsf]
      by_cases hlc : liveLookup live (skey r0) = some r0.channel_id
      · rw [if_pos hlc]
        exact ih hnd'
      · rw [if_neg hlc, List.find?_cons_of_neg _ (by simpa [skey] using hp)]
        exact ih hnd'

theorem moveStartOps_find (rows : List ActiveSession) (live : List ((Nat × Nat) × Nat))
    (p : Nat × Nat) (hnd : (rows.map skey).Nodup) :
    (moveStartOps rows live).find? (fun e => (e.1, e.2.1) = p) =
      match sfind rows p with
      | some r =>
        (match liveLookup live p with
         | some c => if c = r.channel_id then none else some (r.guild_id, r.user_id, c)
         | none => none)
      | none => none := by
  induction rows with
  | nil => rfl
  | cons r0 rest ih =>
    rw [List.map_cons] at hnd
    obtain ⟨hnotin, hnd'⟩ := List.nodup_cons.mp hnd
    by_cases hp : skey r0 = p
    · have hsf : sfind (r0 :: rest) p = some r0 := by rw [sfind_cons, if_pos hp]
      rw [hsf]
      have hrestnone : (moveStartOps rest live).find? (fun e => (e.1, e.2.1) = p) = none := by
        apply find?_eq_none_of_key_not_mem (fun e => (e.1, e.2.1)) (moveStartOps rest live) p
        intro hmem
        exact hnotin (hp ▸ (moveStartOps_keys_sublist rest live).subset hmem)
      cases hl : liveLookup live (skey r0) with
      | none =>
        have hlp : liveLookup live p = none := hp ▸ hl
        rw [moveStartOps_cons_none r0 rest live hl]
        show (moveStartOps rest live).find? (fun e => (e.1, e.2.1) = p) =
          match liveLookup live p with
          | some c => if c = r0.channel_id then none else some (r0.guild_id, r0.user_id, c)
          | none => none
        rw [hlp]
        exact hrestnone
      | some c =>
        have hlp : liveLookup live p = some c := hp ▸ hl
        by_cases hc : c = r0.channel_id
        · rw [moveStartOps_cons_skip r0 rest live (by rw [hl, hc])]
          show (moveStartOps rest live).find? (fun e => (e.1, e.2.1) = p) =
            match liveLookup live p with
            | some c2 => if c2 = r0.channel_id then none else some (r0.guild_id, r0.user_id, c2)
            | none => none
          rw [hlp]
          show _ = if c = r0.channel_id then none else some (r0.guild_id, r0.user_id, c)
          rw [if_pos hc]
          exact hrestnone
        · rw [moveStartOps_cons_entry r0 rest live c hl hc,
            List.find?_cons_of_pos _ (by simpa [skey] using hp)]
          show some (r0.guild_id, r0.user_id, c) =
            match liveLookup live p with
            | some c2 => if c2 = r0.channel_id then none else some (r0.guild_id, r0.user_id, c2)
            | none => none
          rw [hlp]
          show _ = if c = r0.channel_id then none else some (r0.guild_id, r0.user_id, c)
          rw [if_neg hc]
    · have hsf : sfind (r0 :: rest) p = sfind rest p := by rw [sfind_cons, if_neg hp]
      rw [hsf]
      cases hl : liveLookup live (skey r0) with
      | none =>
        rw [moveStartOps_cons_none r0 rest live hl]
        exact ih hnd'
      | some c =>
        by_cases hc : c = r0.channel_id
        · rw [moveStartOps_cons_skip r0 rest live (by rw [hl, hc])]
          exact ih hnd'
        · rw [moveStartOps_cons_entry r0 rest live c hl hc,
            List.find?_cons_of_neg _ (by simpa [skey] using hp)]
          exact ih hnd'

theorem freshStartOps_find (rows : List ActiveSession) (live : List ((Nat × Nat) × Nat))
    (p : Nat × Nat) :
    (freshStartOps rows live).find? (fun e => (e.1, e.2.1) = p) =
      match liveLookup live p with
      | some c => if (sfind rows p).isSome then none else some (p.1, p.2, c)
      | none => none := by
  induction live with
  | nil => rfl
  | cons e live' ih =>
    rw [freshStartOps_cons, liveLookup_cons]
    by_cases hp : e.1 = p
    · rw [if_pos hp]
      by_cases hrec : rows.any (fun r => skey r = e.1)
      · have hsome : (sfind rows p).isSome := by
          rw [any_eq_isSome_find?] at hrec
          rw [← hp]
          exact hrec
        rw [if_pos hrec, ih]
        cases hl : liveLookup live' p with
        | none =>
          show (none : Option (Nat × Nat × Nat)) =
            if (sfind rows p).isSome then none else some (p.1, p.2, e.2)
          rw [if_pos hsome]
        | some c =>
          show (if (sfind rows p).isSome then none else some (p.1, p.2, c)) =
            if (sfind rows p).isSome then none else some (p.1, p.2, e.2)
          rw [if_pos hsome, if_pos hsome]
      · have hnone : ¬ (sfind rows p).isSome := by
          rw [any_eq_isSome_find?] at hrec
          rw [← hp]
          exact hrec
        rw [if_neg hrec, List.find?_cons_of_pos _ (by simp [hp])]
        show some (e.1.1, e.1.2, e.2) =
          if (sfind rows p).isSome then none else some (p.1, p.2, e.2)
        rw [if_neg hnone, ← hp]
    · rw [if_neg hp]
      by_cases hrec : rows.any (fun r => skey r = e.1)
      · rw [if_pos hrec, ih]
      · rw [if_neg hrec, List.find?_cons_of_neg _ (by simp [hp]), ih]

theorem startOps_find (rows : List ActiveSession) (live : List ((Nat × Nat) × Nat))
    (p : Nat × Nat) (hnd : (rows.map skey).Nodup) :
    ((moveStartOps rows live ++ freshStartOps rows live).find?
        (fun e => (e.1, e.2.1) = p)) =
      match liveLookup live p, sfind rows p with
      | some c, some r => if c = r.channel_id then none else some (r.guild_id, r.user_id, c)
      | some c, none => some (p.1, p.2, c)
      | none, _ => none := by
  rw [List.find?_append, moveStartOps_find rows live p hnd, freshStartOps_find rows live p]
  cases hl : liveLookup live p with
  | none =>
    cases hs : sfind rows p <;> rfl
  | some c =>
    cases hs : sfind rows p with
    | none => rfl
    | some r =>
      by_cases hc : c = r.channel_id
      · show ((if c = r.channel_id then none else some (r.guild_id, r.user_id, c)).or
          (if (some r).isSome then none else some (p.1, p.2, c))) = _
        rw [if_pos hc]
        show (Option.or none none) = if c = r.channel_id then none
          else some (r.guild_id, r.user_id, c)
        rw [if_pos hc]
        rfl
      · show ((if c = r.channel_id then none else some (r.guild_id, r.user_id, c)).or
          (if (some r).isSome then none else some (p.1, p.2, c))) = _
        rw [if_neg hc]
        show (Option.or (some (r.guild_id, r.user_id, c)) none) =
          if c = r.channel_id then none else some (r.guild_id, r.user_id, c)
        rw [if_neg hc]
        rfl

theorem sessionsForRows_of_sfind_some (rows : List ActiveSession) (p : Nat × Nat)
    (r : ActiveSession) (hnd : (rows.map skey).Nodup) (h : sfind rows p = some r) :
    sessionsForRows rows p = [r] := by
  induction rows with
  | nil => exact absurd h (by simp [sfind_nil])
  | cons r0 rest ih =>
    rw [List.map_cons] at hnd
    obtain ⟨hnotin, hnd'⟩ := List.nodup_cons.mp hnd
    rw [sfind_cons] at h
    by_cases hp : skey r0 = p
    · rw [if_pos hp] at h
      obtain rfl : r0 = r := by simpa using h
      rw [sessionsForRows_cons, if_pos hp,
        sessionsForRows_eq_nil_of_sfind_none rest p (by
          apply find?_eq_none_of_key_not_mem skey rest p
          exact hp ▸ hnotin)]
    · rw [if_neg hp] at h
      rw [sessionsForRows_cons, if_neg hp]
      exact ih hnd' h

/-- C2: reconciliation.  For any persisted active_sessions table (with its
primary-key invariant) and any live snapshot (a finite map of pairs to
channels), after `reconcile_active_sessions` there is exactly one
ActiveSession for every live (guild, user) — kept untouched when its stored
channel equals the live one, otherwise a fresh row in the live channel
started at `now` — and none for non-live pairs; and every stale stored
session credits its positive elapsed time to all four buckets while matching
sessions credit nothing. -/
theorem reconcile_active_sessions_correct
    (s : Store) (live : List ((Nat × Nat) × Nat)) (now : Int)
    (hnd : (s.active_sessions.map skey).Nodup)
    (hlive : (live.map (fun e => e.1)).Nodup) :
    (∀ g u : Nat,
      sessionsFor (reconcile_active_sessions live now s) g u =
        match liveLookup live (g, u), sfind s.active_sessions (g, u) with
        | some c, some r => if r.channel_id = c then [r] else [⟨g, u, c, now⟩]
        | some c, none => [⟨g, u, c, now⟩]
        | none, _ => []) ∧
    (∀ (g u : Nat) (b : Bucket),
      secondsOf (reconcile_active_sessions live now s) g u b =
        secondsOf s g u b +
          match sfind s.active_sessions (g, u) with
          | some r =>
            if liveLookup live (g, u) = some r.channel_id then 0
            else if 0 < now - r.started_at then now - r.started_at else 0
          | none => 0) := by
  have hact : (reconcile_active_sessions live now s).active_sessions =
      (moveStartOps s.active_sessions live ++ freshStartOps s.active_sessions live).foldl
        (fun acc e => insertSessionIfAbsent e.1 e.2.1 e.2.2 now acc)
        ((finalizeOps s.active_sessions live).foldl
          (fun acc e => deleteSession e.1 e.2.1 acc) s.active_sessions) := by
    show ((moveStartOps s.active_sessions live ++ freshStartOps s.active_sessions live).foldl
        (fun st e => start_session e.1 e.2.1 e.2.2 now st)
        ((finalizeOps s.active_sessions live).foldl
          (fun st e => finalizeSession e.1 e.2.1 e.2.2 now st) s)).active_sessions = _
    rw [startFold_active, finalizeFold_active]
  have hvt : (reconcile_active_sessions live now s).voice_time =
      (finalizeOps s.active_sessions live).foldl
        (fun acc e =>
          if 0 < now - e.2.2 then applyVoiceRows e.1 e.2.1 (now - e.2.2) now acc else acc)
        s.voice_time := by
    show ((moveStartOps s.active_sessions live ++ freshStartOps s.active_sessions live).foldl
        (fun st e => start_session e.1 e.2.1 e.2.2 now st)
        ((finalizeOps s.active_sessions live).foldl
          (fun st e => finalizeSession e.1 e.2.1 e.2.2 now st) s)).voice_time = _
    rw [startFold_voice, finalizeFold_voice]
  have hfoKeys : ((finalizeOps s.active_sessions live).map (fun e => (e.1, e.2.1))).Nodup :=
    (finalizeOps_keys_sublist _ _).nodup hnd
  have hsoKeys : (((moveStartOps s.active_sessions live ++
      freshStartOps s.active_sessions live).map (fun e => (e.1, e.2.1)))).Nodup := by
    rw [List.map_append]
    apply List.Nodup.append
    · exact (moveStartOps_keys_sublist _ _).nodup hnd
    · exact (freshStartOps_keys_sublist _ _).nodup hlive
    · intro q hq1 hq2
      exact freshStartOps_key_not_recorded _ _ q hq2
        ((moveStartOps_keys_sublist _ _).subset hq1)
  constructor
  · intro g u
    have hfo := finalizeOps_find s.active_sessions live (g, u) hnd
    have hso := startOps_find s.active_sessions live (g, u) hnd
    have hanyfo : (finalizeOps s.active_sessions live).any (fun e => (e.1, e.2.1) = (g, u)) =
        ((finalizeOps s.active_sessions live).find?
          (fun e => (e.1, e.2.1) = (g, u))).isSome :=
      any_eq_isSome_find? _ _
    rw [sessionsFor, hact]
    cases hs : sfind s.active_sessions (g, u) with
    | none =>
      have hnil : sessionsForRows s.active_sessions (g, u) = [] :=
        sessionsForRows_eq_nil_of_sfind_none _ _ hs
      have hfo2 : (finalizeOps s.active_sessions live).find?
          (fun e => (e.1, e.2.1) = (g, u)) = none := by
        rw [hfo, hs]
      have hanyfalse : (finalizeOps s.active_sessions live).any
          (fun e => (e.1, e.2.1) = (g, u)) = false := by
        rw [hanyfo, hfo2]
        rfl
      have hdel1 : sessionsForRows ((finalizeOps s.active_sessions live).foldl
          (fun acc e => deleteSession e.1 e.2.1 acc) s.active_sessions) (g, u) =
          sessionsForRows s.active_sessions (g, u) := by
        rw [deleteFold_sessionsFor, if_neg (by rw [hanyfalse]; simp)]
      have hsfdel : sfind ((finalizeOps s.active_sessions live).foldl
          (fun acc e => deleteSession e.1 e.2.1 acc) s.active_sessions) (g, u) = none := by
        rw [deleteFold_sfind, if_neg (by rw [hanyfalse]; simp), hs]
      cases hl : liveLookup live (g, u) with
      | none =>
        have hso2 : ((moveStartOps s.active_sessions live ++
            freshStartOps s.active_sessions live).find?
            (fun e => (e.1, e.2.1) = (g, u))) = none := by
          rw [hso, hl]
        rw [insertFold_sessionsFor_none _ _ _ _ hso2, hdel1, hnil]
      | some c =>
        have hso2 : ((moveStartOps s.active_sessions live ++
            freshStartOps s.active_sessions live).find?
            (fun e => (e.1, e.2.1) = (g, u))) = some (g, u, c) := by
          rw [hso, hl, hs]
        rw [insertFold_sessionsFor_some _ _ _ _ _ hsoKeys hso2,
          if_neg (by rw [hsfdel]; simp)]
    | some r =>
      have hk : skey r = (g, u) := sfind_key _ _ _ hs
      have hone : sessionsForRows s.active_sessions (g, u) = [r] :=
        sessionsForRows_of_sfind_some _ _ _ hnd hs
      cases hl : liveLookup live (g, u) with
      | none =>
        have hfo2 : (finalizeOps s.active_sessions live).find?
            (fun e => (e.1, e.2.1) = (g, u)) =
            some (r.guild_id, r.user_id, r.started_at) := by
          rw [hfo, hs, hl]
          show (if (none : Option Nat) = some r.channel_id then none
            else some (r.guild_id, r.user_id, r.started_at)) = _
          rw [if_neg (by simp)]
        have hanytrue : (finalizeOps s.active_sessions live).any
            (fun e => (e.1, e.2.1) = (g, u)) = true := by
          rw [hanyfo, hfo2]
          rfl
        have hso2 : ((moveStartOps s.active_sessions live ++
            freshStartOps s.active_sessions live).find?
            (fun e => (e.1, e.2.1) = (g, u))) = none := by
          rw [hso, hl]
        rw [insertFold_sessionsFor_none _ _ _ _ hso2, deleteFold_sessionsFor,
          if_pos hanytrue]
      | some c =>
        by_cases hc : r.channel_id = c
        · have hfo2 : (finalizeOps s.active_sessions live).find?
              (fun e => (e.1, e.2.1) = (g, u)) = none := by
            rw [hfo, hs, hl]
            show (if some c = some r.channel_id then none
              else some (r.guild_id, r.user_id, r.started_at)) = _
            rw [if_pos (by rw [hc])]
          have hanyfalse : (finalizeOps s.active_sessions live).any
              (fun e => (e.1, e.2.1) = (g, u)) = false := by
            rw [hanyfo, hfo2]
            rfl
          have hso2 : ((moveStartOps s.active_sessions live ++
              freshStartOps s.active_sessions live).find?
              (fun e => (e.1, e.2.1) = (g, u))) = none := by
            rw [hso, hl, hs]
            show (if c = r.channel_id then none
              else some (r.guild_id, r.user_id, c)) = none
            rw [if_pos hc.symm]
          rw [insertFold_sessionsFor_none _ _ _ _ hso2, deleteFold_sessionsFor,
            if_neg (by rw [hanyfalse]; simp), hone]
          show ([r] : List ActiveSession) = if r.channel_id = c then [r] else [⟨g, u, c, now⟩]
          rw [if_pos hc]
        · have hfo2 : (finalizeOps s.active_sessions live).find?
              (fun e => (e.1, e.2.1) = (g, u)) =
              some (r.guild_id, r.user_id, r.started_at) := by
            rw [hfo, hs, hl]
            show (if some c = some r.channel_id then none
              else some (r.guild_id, r.user_id, r.started_at)) = _
            rw [if_neg (by intro hh; exact hc (by injection hh with h2; exact h2.symm))]
          have hanytrue : (finalizeOps s.active_sessions live).any
              (fun e => (e.1, e.2.1) = (g, u)) = true := by
            rw [hanyfo, hfo2]
            rfl
          have hso2 : ((moveStartOps s.active_sessions live ++
              freshStartOps s.active_sessions live).find?
              (fun e => (e.1, e.2.1) = (g, u))) = some (r.guild_id, r.user_id, c) := by
            rw [hso, hl, hs]
            show (if c = r.channel_id then none
              else some (r.guild_id, r.user_id, c)) = _
            rw [if_neg (fun hh => hc hh.symm)]
          have hsfdel : sfind ((finalizeOps s.active_sessions live).foldl
              (fun acc e => deleteSession e.1 e.2.1 acc) s.active_sessions) (g, u) =
              none := by
            rw [deleteFold_sfind, if_pos hanytrue]
          rw [insertFold_sessionsFor_some _ _ _ _ _ hsoKeys hso2,
            if_neg (by rw [hsfdel]; simp)]
          show ([⟨r.guild_id, r.user_id, c, now⟩] : List ActiveSession) =
            if r.channel_id = c then [r] else [⟨g, u, c, now⟩]
          have h1 : r.guild_id = g := congrArg Prod.fst hk
          have h2 : r.user_id = u := congrArg (fun q => q.2) hk
          rw [if_neg hc, h1, h2]
  · intro g u b
    have hfo := finalizeOps_find s.active_sessions live (g, u) hnd
    rw [secondsOf, hvt, secsRows_finalizeVoiceFold _ _ _ _ _ _ hfoKeys, hfo]
    cases hs : sfind s.active_sessions (g, u) with
    | none => rfl
    | some r =>
      by_cases hlc : liveLookup live (g, u) = some r.channel_id
      · show secsRows s.voice_time (g, u, b) +
          (match (if liveLookup live (g, u) = some r.channel_id then none
            else some (r.guild_id, r.user_id, r.started_at)) with
           | some e => if 0 < now - e.2.2 then now - e.2.2 else 0
           | none => 0) =
          secondsOf s g u b +
            (if liveLookup live (g, u) = some r.channel_id then 0
             else if 0 < now - r.started_at then now - r.started_at else 0)
        rw [if_pos hlc, if_pos hlc]
        rfl
      · show secsRows s.voice_time (g, u, b) +
          (match (if liveLookup live (g, u) = some r.channel_id then none
            else some (r.guild_id, r.user_id, r.started_at)) with
           | some e => if 0 < now - e.2.2 then now - e.2.2 else 0
           | none => 0) =
          secondsOf s g u b +
            (if liveLookup live (g, u) = some r.channel_id then 0
             else if 0 < now - r.started_at then now - r.started_at else 0)
        rw [if_neg hlc, if_neg hlc]
        rfl

/-- Witness for C2: the spec's reconciliation scenario — a persisted session
(guild 1, user 7, channel A=5) started 600 seconds before `now`, a live
snapshot showing user 7 in channel B=9: one fresh session at B remains and
600 seconds are credited. -/
theorem reconcile_active_sessions_correct_witness :
    sessionsFor (reconcile_active_sessions [((1, 7), 9)] 600 ⟨[], [⟨1, 7, 5, 0⟩], []⟩) 1 7 =
      [⟨1, 7, 9, 600⟩] ∧
    secondsOf (reconcile_active_sessions [((1, 7), 9)] 600 ⟨[], [⟨1, 7, 5, 0⟩], []⟩)
      1 7 Bucket.alltime =
      secondsOf ⟨[], [⟨1, 7, 5, 0⟩], []⟩ 1 7 Bucket.alltime + 600 :=
  ⟨((reconcile_active_sessions_correct ⟨[], [⟨1, 7, 5, 0⟩], []⟩ [((1, 7), 9)] 600
      (by decide) (by decide)).1 1 7).trans (by decide),
    ((reconcile_active_sessions_correct ⟨[], [⟨1, 7, 5, 0⟩], []⟩ [((1, 7), 9)] 600
      (by decide) (by decide)).2 1 7 Bucket.alltime).trans (by decide)⟩

/-! ### C10: the alltime bucket dominates the periodic buckets -/

theorem vfind_applyVoiceRows_self (g u : Nat) (d ts : Int) (rows : List VoiceTimeRow)
    (b : Bucket) : (vfind (applyVoiceRows g u d ts rows) (g, u, b)).isSome := by
  rw [applyVoiceRows_eq]
  cases b with
  | weekly =>
    rw [vfind_upsert_ne _ _ _ _ _ _ _ (by simp), vfind_upsert_ne _ _ _ _ _ _ _ (by simp),
      vfind_upsert_ne _ _ _ _ _ _ _ (by simp), vfind_upsert_self]
    rfl
  | monthly =>
    rw [vfind_upsert_ne _ _ _ _ _ _ _ (by simp), vfind_upsert_ne _ _ _ _ _ _ _ (by simp),
      vfind_upsert_self]
    rfl
  | yearly =>
    rw [vfind_upsert_ne _ _ _ _ _ _ _ (by simp), vfind_upsert_self]
    rfl
  | alltime =>
    rw [vfind_upsert_self]
    rfl

theorem vfind_applyVoiceRows_ne (g u : Nat) (d ts : Int) (rows : List VoiceTimeRow)
    (g' u' : Nat) (b' : Bucket) (h : ¬ (g' = g ∧ u' = u)) :
    vfind (applyVoiceRows g u d ts rows) (g', u', b') = vfind rows (g', u', b') := by
  rw [applyVoiceRows_eq]
  have h1 : ∀ b0 : Bucket, ((g', u', b') : Nat × Nat × Bucket) ≠ (g, u, b0) := by
    intro b0 hEq
    exact h ⟨congrArg (·.1) hEq, congrArg (·.2.1) hEq⟩
  rw [vfind_upsert_ne _ _ _ _ _ _ _ (h1 _), vfind_upsert_ne _ _ _ _ _ _ _ (h1 _),
    vfind_upsert_ne _ _ _ _ _ _ _ (h1 _), vfind_upsert_ne _ _ _ _ _ _ _ (h1 _)]

theorem upsertVoice_nonneg (g u : Nat) (b : Bucket) (d ts : Int)
    (rows : List VoiceTimeRow) (hd : 0 ≤ d) (h : nonnegSeconds rows) :
    nonnegSeconds (upsertVoice g u b d ts rows) := by
  induction rows with
  | nil =>
    intro r hr
    have : r = ⟨g, u, b, d, ts⟩ := by simpa [upsertVoice] using hr
    subst this
    exact hd
  | cons r0 rest ih =>
    intro r hr
    by_cases hk : vkey r0 = (g, u, b)
    · rw [show upsertVoice g u b d ts (r0 :: rest) =
        { r0 with seconds := r0.seconds + d, updated_at := ts } :: rest from by
          simp [upsertVoice, hk]] at hr
      rcases List.mem_cons.mp hr with h1 | h1
      · subst h1
        show 0 ≤ r0.seconds + d
        exact add_nonneg (h r0 (List.mem_cons_self _ _)) hd
      · exact h r (List.mem_cons_of_mem _ h1)
    · rw [show upsertVoice g u b d ts (r0 :: rest) = r0 :: upsertVoice g u b d ts rest from by
        simp [upsertVoice, hk]] at hr
      rcases List.mem_cons.mp hr with h1 | h1
      · rw [h1]
        exact h r0 (List.mem_cons_self _ _)
      · exact ih (fun r2 hr2 => h r2 (List.mem_cons_of_mem _ hr2)) r h1

theorem applyVoiceRows_nonneg (g u : Nat) (d ts : Int) (rows : List VoiceTimeRow)
    (hd : 0 ≤ d) (h : nonnegSeconds rows) :
    nonnegSeconds (applyVoiceRows g u d ts rows) := by
  rw [applyVoiceRows_eq]
  exact upsertVoice_nonneg _ _ _ _ _ _ hd (upsertVoice_nonneg _ _ _ _ _ _ hd
    (upsertVoice_nonneg _ _ _ _ _ _ hd (upsertVoice_nonneg _ _ _ _ _ _ hd h)))

theorem secsRows_nonneg (rows : List VoiceTimeRow) (k : Nat × Nat × Bucket)
    (h : nonnegSeconds rows) : 0 ≤ secsRows rows k := by
  rw [secsRows]
  cases hv : vfind rows k with
  | none => simp
  | some r => exact h r (List.mem_of_find?_eq_some hv)

theorem InvAux_applyVoiceRows (g u : Nat) (d ts : Int) (rows : List VoiceTimeRow)
    (hd : 0 < d) (h : InvAux rows) : InvAux (applyVoiceRows g u d ts rows) := by
  obtain ⟨hdom, hnn⟩ := h
  constructor
  · intro g' u' b' hb hrow
    by_cases hk : g' = g ∧ u' = u
    · obtain ⟨rfl, rfl⟩ := hk
      refine ⟨vfind_applyVoiceRows_self _ _ _ _ _ _, ?_⟩
      rw [secsRows_applyVoiceRows, secsRows_applyVoiceRows,
        if_pos (⟨rfl, rfl⟩ : g' = g' ∧ u' = u')]
      by_cases hrow0 : (vfind rows (g', u', b')).isSome
      · have := (hdom g' u' b' hb hrow0).2
        omega
      · have hz : secsRows rows (g', u', b') = 0 := by
          rw [secsRows]
          cases hv : vfind rows (g', u', b') with
          | none => rfl
          | some r => exact absurd (by rw [hv]; rfl) hrow0
        have hnn2 : 0 ≤ secsRows rows (g', u', Bucket.alltime) := secsRows_nonneg _ _ hnn
        omega
    · rw [vfind_applyVoiceRows_ne _ _ _ _ _ _ _ _ hk] at hrow
      refine ⟨?_, ?_⟩
      · rw [vfind_applyVoiceRows_ne _ _ _ _ _ _ _ _ hk]
        exact (hdom g' u' b' hb hrow).1
      · rw [secsRows_applyVoiceRows, secsRows_applyVoiceRows, if_neg hk,
          add_zero, add_zero]
        exact (hdom g' u' b' hb hrow).2
  · exact applyVoiceRows_nonneg _ _ _ _ _ (le_of_lt hd) hnn

theorem InvAux_applyFold (L : List (Nat × Nat × Int)) (now : Int) :
    ∀ rows : List VoiceTimeRow, (∀ e ∈ L, 0 < e.2.2) → InvAux rows →
      InvAux (L.foldl (fun acc e => applyVoiceRows e.1 e.2.1 e.2.2 now acc) rows) := by
  induction L with
  | nil =>
    intro rows _ h
    exact h
  | cons e L' ih =>
    intro rows hpos h
    rw [List.foldl_cons]
    exact ih _ (fun x hx => hpos x (List.mem_cons_of_mem _ hx))
      (InvAux_applyVoiceRows _ _ _ _ _ (hpos e (List.mem_cons_self _ _)) h)

theorem InvAux_finalizeVoiceFold (fo : List (Nat × Nat × Int)) (now : Int) :
    ∀ rows : List VoiceTimeRow, InvAux rows →
      InvAux (fo.foldl (fun acc e =>
        if 0 < now - e.2.2 then applyVoiceRows e.1 e.2.1 (now - e.2.2) now acc else acc)
        rows) := by
  induction fo with
  | nil =>
    intro rows h
    exact h
  | cons e fo' ih =>
    intro rows h
    rw [List.foldl_cons]
    by_cases hpos : 0 < now - e.2.2
    · rw [if_pos hpos]
      exact ih _ (InvAux_applyVoiceRows _ _ _ _ _ hpos h)
    · rw [if_neg hpos]
      exact ih _ h

theorem vfind_filter_bucket_ne (b0 : Bucket) (g u : Nat) (b : Bucket) (hb : ¬ b = b0)
    (rows : List VoiceTimeRow) :
    vfind (rows.filter (fun r => ¬ r.bucket = b0)) (g, u, b) = vfind rows (g, u, b) := by
  induction rows with
  | nil => rfl
  | cons r rest ih =>
    rw [List.filter_cons]
    by_cases hrb : r.bucket = b0
    · rw [if_neg (by simp [hrb])]
      have hkey : ¬ vkey r = (g, u, b) := by
        intro hh
        have hcomp : r.bucket = b := congrArg (fun q : Nat × Nat × Bucket => q.2.2) hh
        exact hb (hcomp ▸ hrb)
      rw [vfind_cons, if_neg hkey, ih]
    · rw [if_pos (by simp [hrb])]
      rw [vfind_cons, vfind_cons, ih]

theorem vfind_filter_bucket_self (b0 : Bucket) (g u : Nat) (rows : List VoiceTimeRow) :
    vfind (rows.filter (fun r => ¬ r.bucket = b0)) (g, u, b0) = none := by
  rw [vfind, List.find?_eq_none]
  intro r hr hpr
  have hmem := List.mem_filter.mp hr
  have hbr : ¬ r.bucket = b0 := by simpa using hmem.2
  have hk : vkey r = (g, u, b0) := by simpa using hpr
  exact hbr (congrArg (fun q : Nat × Nat × Bucket => q.2.2) hk)

theorem InvAux_filter_bucket (b0 : Bucket) (hb0 : ¬ b0 = Bucket.alltime)
    (rows : List VoiceTimeRow) (h : InvAux rows) :
    InvAux (rows.filter (fun r => ¬ r.bucket = b0)) := by
  obtain ⟨hdom, hnn⟩ := h
  constructor
  · intro g u b hb hrow
    by_cases hbb : b = b0
    · subst hbb
      rw [vfind_filter_bucket_self] at hrow
      exact absurd hrow (by simp)
    · rw [vfind_filter_bucket_ne b0 g u b hbb rows] at hrow
      have halt : ¬ Bucket.alltime = b0 := fun hh => hb0 hh.symm
      have hsec : ∀ b1 : Bucket, ¬ b1 = b0 →
          secsRows (rows.filter (fun r => ¬ r.bucket = b0)) (g, u, b1) =
            secsRows rows (g, u, b1) := by
        intro b1 hb1
        rw [secsRows, vfind_filter_bucket_ne b0 g u b1 hb1 rows, secsRows]
      refine ⟨?_, ?_⟩
      · rw [vfind_filter_bucket_ne b0 g u Bucket.alltime halt rows]
        exact (hdom g u b hb hrow).1
      · rw [hsec b hbb, hsec Bucket.alltime halt]
        exact (hdom g u b hb hrow).2
  · intro r hr
    exact hnn r (List.mem_filter.mp hr).1

theorem vfind_filter_guild_ne (g0 g u : Nat) (b : Bucket) (hg : ¬ g = g0)
    (rows : List VoiceTimeRow) :
    vfind (rows.filter (fun r => ¬ r.guild_id = g0)) (g, u, b) = vfind rows (g, u, b) := by
  induction rows with
  | nil => rfl
  | cons r rest ih =>
    rw [List.filter_cons]
    by_cases hrg : r.guild_id = g0
    · rw [if_neg (by simp [hrg])]
      have hkey : ¬ vkey r = (g, u, b) := by
        intro hh
        have hcomp : r.guild_id = g := congrArg (fun q : Nat × Nat × Bucket => q.1) hh
        exact hg (hcomp ▸ hrg)
      rw [vfind_cons, if_neg hkey, ih]
    · rw [if_pos (by simp [hrg])]
      rw [vfind_cons, vfind_cons, ih]

theorem vfind_filter_guild_self (g0 u : Nat) (b : Bucket) (rows : List VoiceTimeRow) :
    vfind (rows.filter (fun r => ¬ r.guild_id = g0)) (g0, u, b) = none := by
  rw [vfind, List.find?_eq_none]
  intro r hr hpr
  have hmem := List.mem_filter.mp hr
  have hgr : ¬ r.guild_id = g0 := by simpa using hmem.2
  have hk : vkey r = (g0, u, b) := by simpa using hpr
  exact hgr (congrArg (fun q : Nat × Nat × Bucket => q.1) hk)

theorem InvAux_filter_guild (g0 : Nat) (rows : List VoiceTimeRow) (h : InvAux rows) :
    InvAux (rows.filter (fun r => ¬ r.guild_id = g0)) := by
  obtain ⟨hdom, hnn⟩ := h
  constructor
  · intro g u b hb hrow
    by_cases hgg : g = g0
    · subst hgg
      rw [vfind_filter_guild_self] at hrow
      exact absurd hrow (by simp)
    · rw [vfind_filter_guild_ne g0 g u b hgg rows] at hrow
      have hsec : ∀ b1 : Bucket,
          secsRows (rows.filter (fun r => ¬ r.guild_id = g0)) (g, u, b1) =
            secsRows rows (g, u, b1) := by
        intro b1
        rw [secsRows, vfind_filter_guild_ne g0 g u b1 hgg rows, secsRows]
      refine ⟨?_, ?_⟩
      · rw [vfind_filter_guild_ne g0 g u Bucket.alltime hgg rows]
        exact (hdom g u b hb hrow).1
      · rw [hsec b, hsec Bucket.alltime]
        exact (hdom g u b hb hrow).2
  · intro r hr
    exact hnn r (List.mem_filter.mp hr).1

theorem durationUpdates_pos (rows : List ActiveSession) (now : Int) :
    ∀ e ∈ durationUpdates rows now, 0 < e.2.2 := by
  intro e he
  obtain ⟨r, hr, hfr⟩ := List.mem_filterMap.mp he
  by_cases hp : 0 < now - r.started_at
  · rw [if_pos hp] at hfr
    obtain rfl : (r.guild_id, r.user_id, now - r.started_at) = e := by simpa using hfr
    exact hp
  · rw [if_neg hp] at hfr
    exact absurd hfr (by simp)

theorem InvAux_end_session (g u : Nat) (t : Int) (s : Store) (h : InvAux s.voice_time) :
    InvAux (end_session g u t s).voice_time := by
  cases hf : findSession s g u with
  | none =>
    have he : end_session g u t s = s := by simp [end_session, hf]
    rw [he]
    exact h
  | some r =>
    have he : end_session g u t s = finalizeSession g u r.started_at t s := by
      simp [end_session, hf]
    rw [he, finalizeSession_voice]
    by_cases hpos : 0 < t - r.started_at
    · rw [if_pos hpos]
      exact InvAux_applyVoiceRows _ _ _ _ _ hpos h
    · rw [if_neg hpos]
      exact h

theorem InvAux_sync (gf : Option Nat) (t : Int) (s : Store) (h : InvAux s.voice_time) :
    InvAux (sync_active_sessions gf t s).voice_time := by
  by_cases hL : (durationUpdates (syncRows gf s) t).isEmpty
  · have he : sync_active_sessions gf t s = s := by
      rw [sync_active_sessions, syncWrite]
      simp only [hL, if_true]
    rw [he]
    exact h
  · have hvt : (sync_active_sessions gf t s).voice_time =
        (creditsFold (durationUpdates (syncRows gf s) t) t s).voice_time := by
      rw [sync_active_sessions, syncWrite]
      simp only [hL, Bool.false_eq_true, if_false]
    rw [hvt, creditsFold_voice]
    exact InvAux_applyFold _ _ _ (durationUpdates_pos _ _) h

theorem InvAux_reconcile (live : List ((Nat × Nat) × Nat)) (t : Int) (s : Store)
    (h : InvAux s.voice_time) :
    InvAux (reconcile_active_sessions live t s).voice_time := by
  have hvt : (reconcile_active_sessions live t s).voice_time =
      (finalizeOps s.active_sessions live).foldl
        (fun acc e =>
          if 0 < t - e.2.2 then applyVoiceRows e.1 e.2.1 (t - e.2.2) t acc else acc)
        s.voice_time := by
    show ((moveStartOps s.active_sessions live ++ freshStartOps s.active_sessions live).foldl
        (fun st e => start_session e.1 e.2.1 e.2.2 t st)
        ((finalizeOps s.active_sessions live).foldl
          (fun st e => finalizeSession e.1 e.2.1 e.2.2 t st) s)).voice_time = _
    rw [startFold_voice, finalizeFold_voice]
  rw [hvt]
  exact InvAux_finalizeVoiceFold _ _ _ h

theorem InvAux_weekly (d : LocalDate) (s : Store) (h : InvAux s.voice_time) :
    InvAux (handle_weekly_reset d s).voice_time := by
  rw [handle_weekly_reset]
  by_cases hwd : weekday d ≠ 0
  · rw [if_pos hwd]
    exact h
  · rw [if_neg hwd]
    by_cases heq : getMeta s "weekly_reset" = some (isoDate d)
    · rw [if_pos heq]
      exact h
    · rw [if_neg heq]
      exact InvAux_filter_bucket Bucket.weekly (by simp) _ h

theorem InvAux_monthly (d : LocalDate) (s : Store) (h : InvAux s.voice_time) :
    InvAux (handle_monthly_reset d s).voice_time := by
  rw [handle_monthly_reset]
  by_cases hd : d.day ≠ 1
  · rw [if_pos hd]
    exact h
  · rw [if_neg hd]
    by_cases heq : getMeta s "monthly_reset" = some (monthLabel d)
    · rw [if_pos heq]
      exact h
    · rw [if_neg heq]
      exact InvAux_filter_bucket Bucket.monthly (by simp) _ h

theorem InvAux_yearly (d : LocalDate) (s : Store) (h : InvAux s.voice_time) :
    InvAux (handle_yearly_reset d s).voice_time := by
  rw [handle_yearly_reset]
  by_cases hg : d.month ≠ 1 ∨ d.day ≠ 1
  · rw [if_pos hg]
    exact h
  · rw [if_neg hg]
    by_cases heq : getMeta s "yearly_reset" = some (yearLabel d)
    · rw [if_pos heq]
      exact h
    · rw [if_neg heq]
      exact InvAux_filter_bucket Bucket.yearly (by simp) _ h

theorem InvAux_step (s s' : Store) (hstep : Step s s') (h : InvAux s.voice_time) :
    InvAux s'.voice_time := by
  cases hstep with
  | start g u c t s => exact h
  | close g u t s => exact InvAux_end_session g u t s h
  | flush gf t s => exact InvAux_sync gf t s h
  | recon live t s => exact InvAux_reconcile live t s h
  | resets d t s =>
    exact InvAux_yearly d _ (InvAux_monthly d _ (InvAux_weekly d _ (InvAux_sync none t s h)))
  | clear g s => exact InvAux_filter_guild g _ h

/-- C10: in every store reachable from a fresh database through the engine's
operations, whenever a periodic-bucket row exists for a (guild, user), the
alltime row also exists and holds at least as many seconds — every credit
adds the same positive amount to all four buckets, periodic resets delete
whole periodic-bucket rows only, and the alltime bucket is never reset. -/
theorem alltime_dominates_reachable (s : Store) (h : Reachable s) :
    ∀ (g u : Nat) (b : Bucket), ¬ b = Bucket.alltime → hasVoiceRow s g u b →
      hasVoiceRow s g u Bucket.alltime ∧
        secondsOf s g u b ≤ secondsOf s g u Bucket.alltime := by
  have hinv : InvAux s.voice_time := by
    induction h with
    | refl =>
      constructor
      · intro g u b hb hrow
        exact absurd hrow (by simp [initStore, vfind])
      · intro r hr
        exact absurd hr (by simp [initStore])
    | tail hsteps hstep ih => exact InvAux_step _ _ hstep ih
  intro g u b hb hrow
  exact hinv.1 g u b hb hrow

/-- Witness for C10 at a concrete reachable store: start a session at time 0
for (1, 7) in channel 5 and close it at 600; the weekly row exists and the
alltime row dominates it. -/
theorem alltime_dominates_reachable_witness :
    Reachable (end_session 1 7 600 (start_session 1 7 5 0 initStore)) ∧
    hasVoiceRow (end_session 1 7 600 (start_session 1 7 5 0 initStore)) 1 7
      Bucket.weekly ∧
    (hasVoiceRow (end_session 1 7 600 (start_session 1 7 5 0 initStore)) 1 7
      Bucket.alltime ∧
      secondsOf (end_session 1 7 600 (start_session 1 7 5 0 initStore)) 1 7 Bucket.weekly ≤
        secondsOf (end_session 1 7 600 (start_session 1 7 5 0 initStore)) 1 7
          Bucket.alltime) :=
  have hreach : Reachable (end_session 1 7 600 (start_session 1 7 5 0 initStore)) :=
    Relation.ReflTransGen.tail
      (Relation.ReflTransGen.tail Relation.ReflTransGen.refl (Step.start 1 7 5 0 initStore))
      (Step.close 1 7 600 (start_session 1 7 5 0 initStore))
  ⟨hreach, by decide,
    alltime_dominates_reachable _ hreach 1 7 Bucket.weekly (by decide) (by decide)⟩

/-! ### C3: atomicity of logical mutations -/

theorem txRun_stmts (p : List DbStmt) (st : Store × Store) :
    txRun (p.map .stmt) st = (st.1, execProg p st.2) := by
  induction p generalizing st with
  | nil => rfl
  | cons c p' ih =>
    rw [List.map_cons]
    exact ih _

theorem durableAfter_txOf (p : List DbStmt) (k : Nat) (s : Store) :
    durableAfter (txOf p) k s = if k ≤ p.length then s else execProg p s := by
  by_cases hp : p.isEmpty
  · obtain rfl : p = [] := List.isEmpty_iff.mp hp
    rw [show txOf ([] : List DbStmt) = [] from rfl]
    show (txRun (([] : List TxAct).take k) (s, s)).1 = _
    rw [List.take_nil]
    show s = if k ≤ ([] : List DbStmt).length then s else execProg [] s
    split <;> rfl
  · rw [txOf, if_neg hp]
    by_cases hk : k ≤ p.length
    · rw [if_pos hk, durableAfter,
        List.take_append_of_le_length (by simpa using hk), ← List.map_take, txRun_stmts]
    · rw [if_neg hk]
      have hlen : (p.map TxAct.stmt ++ [TxAct.commit]).length ≤ k := by
        simp only [List.length_append, List.length_map, List.length_cons, List.length_nil]
        omega
      rw [durableAfter, List.take_of_length_le hlen]
      show ((p.map TxAct.stmt ++ [TxAct.commit]).foldl _ (s, s)).1 = _
      rw [List.foldl_append]
      rw [show (p.map TxAct.stmt).foldl (fun st a =>
        match a with
        | .stmt c => (st.1, execStmt c st.2)
        | .commit => (st.2, st.2)) (s, s) = txRun (p.map .stmt) (s, s) from rfl, txRun_stmts]
      rfl

theorem execProg_append (p1 p2 : List DbStmt) (s : Store) :
    execProg (p1 ++ p2) s = execProg p2 (execProg p1 s) := by
  rw [execProg, execProg, execProg, List.foldl_append]

theorem execProg_applyDurationStmts (g u : Nat) (d ts : Int) (s : Store) :
    execProg (applyDurationStmts g u d ts) s = apply_duration g u d ts s := rfl

theorem execProg_finalizeStmts (g u : Nat) (t0 now : Int) (s : Store) :
    execProg (finalizeStmts g u t0 now) s = finalizeSession g u t0 now s := by
  have hxt : ∀ s1 s2 : Store, s1.voice_time = s2.voice_time →
      s1.active_sessions = s2.active_sessions → s1.metadata = s2.metadata → s1 = s2 := by
    intro s1 s2 h1 h2 h3
    cases s1 with
    | mk v a m =>
      cases s2 with
      | mk v2 a2 m2 =>
        have e1 : v = v2 := h1
        have e2 : a = a2 := h2
        have e3 : m = m2 := h3
        rw [e1, e2, e3]
  apply hxt
  · by_cases h : 0 < now - t0
    · rw [finalizeStmts, if_pos h, execProg_append, execProg_applyDurationStmts]
      rw [finalizeSession_voice, if_pos h]
      rfl
    · rw [finalizeStmts, if_neg h, finalizeSession_voice, if_neg h]
      rfl
  · by_cases h : 0 < now - t0
    · rw [finalizeStmts, if_pos h, execProg_append, execProg_applyDurationStmts,
        finalizeSession_active]
      rfl
    · rw [finalizeStmts, if_neg h, finalizeSession_active]
      rfl
  · by_cases h : 0 < now - t0
    · rw [finalizeStmts, if_pos h, execProg_append, execProg_applyDurationStmts,
        finalizeSession_metadata]
      rfl
    · rw [finalizeStmts, if_neg h, finalizeSession_metadata]
      rfl

theorem execProg_endSessionProg (g u : Nat) (now : Int) (s : Store) :
    execProg (endSessionProg g u now s) s = end_session g u now s := by
  cases hf : findSession s g u with
  | none =>
    have h1 : endSessionProg g u now s = [] := by simp [endSessionProg, hf]
    have h2 : end_session g u now s = s := by simp [end_session, hf]
    rw [h1, h2]
    rfl
  | some r =>
    have h1 : endSessionProg g u now s = finalizeStmts g u r.started_at now := by
      simp [endSessionProg, hf]
    have h2 : end_session g u now s = finalizeSession g u r.started_at now s := by
      simp [end_session, hf]
    rw [h1, h2, execProg_finalizeStmts]

theorem execProg_joinApply (L : List (Nat × Nat × Int)) (now : Int) (s : Store) :
    execProg ((L.map (fun e => applyDurationStmts e.1 e.2.1 e.2.2 now)).flatten) s =
      creditsFold L now s := by
  induction L generalizing s with
  | nil => rfl
  | cons e L' ih =>
    rw [List.map_cons, List.flatten_cons, execProg_append, execProg_applyDurationStmts,
      creditsFold_cons, ih]

theorem execProg_updStmts (L : List (Nat × Nat × Int)) (now : Int) (s : Store) :
    execProg (L.map (fun e => DbStmt.updStarted e.1 e.2.1 now)) s =
      { s with active_sessions :=
        L.foldl (fun acc e => updateStartedAt e.1 e.2.1 now acc) s.active_sessions } := by
  induction L generalizing s with
  | nil => rfl
  | cons e L' ih =>
    rw [List.map_cons]
    show execProg (L'.map _) (execStmt (.updStarted e.1 e.2.1 now) s) = _
    rw [ih]
    rfl

theorem execProg_syncProg (gf : Option Nat) (now : Int) (s : Store) :
    execProg (syncProg gf now s) s = sync_active_sessions gf now s := by
  by_cases hL : (durationUpdates (syncRows gf s) now).isEmpty
  · have h1 : syncProg gf now s = [] := by
      rw [syncProg]
      simp only [hL, if_true]
    have h2 : sync_active_sessions gf now s = s := by
      rw [sync_active_sessions, syncWrite]
      simp only [hL, if_true]
    rw [h1, h2]
    rfl
  · have h1 : syncProg gf now s =
        ((durationUpdates (syncRows gf s) now).map
          (fun e => applyDurationStmts e.1 e.2.1 e.2.2 now)).flatten ++
        (durationUpdates (syncRows gf s) now).map (fun e => DbStmt.updStarted e.1 e.2.1 now) := by
      rw [syncProg]
      simp only [hL, Bool.false_eq_true, if_false]
    have h2 : sync_active_sessions gf now s =
        { creditsFold (durationUpdates (syncRows gf s) now) now s with
          active_sessions := ((durationUpdates (syncRows gf s) now).foldl
            (fun acc e => updateStartedAt e.1 e.2.1 now acc)
            (creditsFold (durationUpdates (syncRows gf s) now) now s).active_sessions) } := by
      rw [sync_active_sessions, syncWrite]
      simp only [hL, Bool.false_eq_true, if_false]
    rw [h1, h2, execProg_append, execProg_joinApply, execProg_updStmts]

theorem execProg_joinFinalize (fo : List (Nat × Nat × Int)) (now : Int) (s : Store) :
    execProg ((fo.map (fun e => finalizeStmts e.1 e.2.1 e.2.2 now)).flatten) s =
      fo.foldl (fun st e => finalizeSession e.1 e.2.1 e.2.2 now st) s := by
  induction fo generalizing s with
  | nil => rfl
  | cons e fo' ih =>
    rw [List.map_cons, List.flatten_cons, execProg_append, execProg_finalizeStmts,
      List.foldl_cons, ih]

theorem execProg_insStmts (so : List (Nat × Nat × Nat)) (now : Int) (s : Store) :
    execProg (so.map (fun e => DbStmt.insSession e.1 e.2.1 e.2.2 now)) s =
      so.foldl (fun st e => start_session e.1 e.2.1 e.2.2 now st) s := by
  induction so generalizing s with
  | nil => rfl
  | cons e so' ih =>
    rw [List.map_cons]
    show execProg (so'.map _) (execStmt (.insSession e.1 e.2.1 e.2.2 now) s) = _
    rw [ih]
    rfl

theorem execProg_reconcileProg (live : List ((Nat × Nat) × Nat)) (now : Int) (s : Store) :
    execProg (reconcileProg live now s) s = reconcile_active_sessions live now s := by
  by_cases hE : (finalizeOps s.active_sessions live).isEmpty &&
      (moveStartOps s.active_sessions live ++ freshStartOps s.active_sessions live).isEmpty
  · have h1 : reconcileProg live now s = [] := by
      rw [reconcileProg]
      simp only [hE, if_true]
    have hfo : finalizeOps s.active_sessions live = [] :=
      List.isEmpty_iff.mp ((Bool.and_eq_true _ _).mp hE).1
    have hso : moveStartOps s.active_sessions live ++ freshStartOps s.active_sessions live =
        [] := List.isEmpty_iff.mp ((Bool.and_eq_true _ _).mp hE).2
    have h2 : reconcile_active_sessions live now s = s := by
      show (moveStartOps s.active_sessions live ++
        freshStartOps s.active_sessions live).foldl
        (fun st e => start_session e.1 e.2.1 e.2.2 now st)
        ((finalizeOps s.active_sessions live).foldl
          (fun st e => finalizeSession e.1 e.2.1 e.2.2 now st) s) = s
      rw [hfo, hso]
      rfl
    rw [h1, h2]
    rfl
  · have h1 : reconcileProg live now s =
        ((finalizeOps s.active_sessions live).map
          (fun e => finalizeStmts e.1 e.2.1 e.2.2 now)).flatten ++
        (moveStartOps s.active_sessions live ++
          freshStartOps s.active_sessions live).map
          (fun e => DbStmt.insSession e.1 e.2.1 e.2.2 now) := by
      rw [reconcileProg]
      simp only [hE, Bool.false_eq_true, if_false]
    rw [h1, execProg_append, execProg_joinFinalize, execProg_insStmts]
    rfl

/-- C3: each logical mutation — a close via `end_session`, a flush via
`sync_active_sessions`, a whole reconcile pass — issues all its statements
inside one lock-held block followed by a single commit.  Under the store's
transaction semantics (uncommitted statements are rolled back on failure),
the durable state after a fault at any point is either the original store or
the fully updated one: no state exists in which the voice_time increment
committed without the corresponding active_sessions change, or vice versa. -/
theorem logical_mutations_atomic (s : Store) (g u : Nat) (gf : Option Nat)
    (live : List ((Nat × Nat) × Nat)) (now : Int) (k : Nat) :
    (durableAfter (txOf (endSessionProg g u now s)) k s = s ∨
      durableAfter (txOf (endSessionProg g u now s)) k s = end_session g u now s) ∧
    (durableAfter (txOf (syncProg gf now s)) k s = s ∨
      durableAfter (txOf (syncProg gf now s)) k s = sync_active_sessions gf now s) ∧
    (durableAfter (txOf (reconcileProg live now s)) k s = s ∨
      durableAfter (txOf (reconcileProg live now s)) k s =
        reconcile_active_sessions live now s) := by
  refine ⟨?_, ?_, ?_⟩
  · rw [durableAfter_txOf]
    by_cases hk : k ≤ (endSessionProg g u now s).length
    · rw [if_pos hk]
      exact Or.inl rfl
    · rw [if_neg hk, execProg_endSessionProg]
      exact Or.inr rfl
  · rw [durableAfter_txOf]
    by_cases hk : k ≤ (syncProg gf now s).length
    · rw [if_pos hk]
      exact Or.inl rfl
    · rw [if_neg hk, execProg_syncProg]
      exact Or.inr rfl
  · rw [durableAfter_txOf]
    by_cases hk : k ≤ (reconcileProg live now s).length
    · rw [if_pos hk]
      exact Or.inl rfl
    · rw [if_neg hk, execProg_reconcileProg]
      exact Or.inr rfl

end VoiceTracker
